import Mathlib

/-!
Load tester (`src/main.go`): driver, worker pool and completion barriers

A shallow embedding of `main` and `worker` as a labelled transition system.
The driver, every worker goroutine and every request goroutine own a program
counter; one transition is one scheduling decision.

Environment.  `http.NewRequest` is modelled as `net/http` defines it (an empty
method means GET, the method must be a token, the URL must parse); the URL parser
itself is a parameter, except that it refuses control characters.  The result of
`client.Do` is chosen by the environment in the label of the transition.  The
Go runtime enters with two limits of the machine: the largest channel capacity
`make` can allocate, and the number of worker goroutines it can start.

Granularity.  A worker's receive and the `requestWg.Add(1)` that follows it are one
transition; so are `http.NewRequest` with the branch it selects, and the return of
`client.Do` with the log line and the deferred `requestWg.Done()` of the request
goroutine.  Each of these blocks touches only state private to one goroutine
between two synchronisation points.

Integers.  The flags and the loop counters are Go `int`s: `w++` and `i++` wrap at
64 bits.  The invariant shows that a counter of a loop that still runs is below the
largest `int`, because the channel and the workers it counts fit the machine.

Not modelled: flag parsing, the clock (the two timing lines of the summary are
floating point), the panic of `sync.WaitGroup` on a negative counter (the counters
are integers, and that they stay non-negative is proved), and a limit on the
short-lived request goroutines (a `go func()` always starts).
-/

namespace LoadTester

/-! ## Data model -/

/-- The five command-line flags of `main` (lines 14-18). -/
structure Config where
  url : String
  numRequests : Int
  concurrency : Int
  method : String
  timeout : Int
deriving DecidableEq, Repr

/-- The request descriptor built at lines 77-86: the method `http.NewRequest` stores
(GET for an empty one), the parsed URL in its string form, the body, and the header
entries set afterwards. -/
structure Request where
  Method : String
  URL : String
  Body : Option String
  Header : List (String × String)
deriving DecidableEq, Repr

/-- Result of `client.Do(req)` (line 91): an error, or a response with a status code. -/
inductive Outcome where
  | doErr
  | resp (status : Int)
deriving DecidableEq, Repr

/-- One line written through the `log` package.  `id` is the worker id printed by
the program; `job` is the job identifier the line belongs to (the program does not
print it, it is kept for accounting). -/
inductive LogLine where
  | fatalURL
  | createErr (id : Int) (job : Int)
  | requestErr (id : Int) (job : Int)
  | completed (id : Int) (job : Int) (status : Int)
deriving DecidableEq, Repr

/-- Program counter of `main`: the statement it is at, with the loop counter inside the
two loops, or the way the process ended (`done` after the summary, `fatal` after
`log.Fatal`, `panicked` in `make`, `exhausted w` when the `go` statement for worker `w`
could not get a goroutine). -/
inductive MainPc where
  | start
  | makeChan
  | launch (w : Int)
  | send (i : Int)
  | close
  | wait
  | report
  | done
  | fatal
  | panicked
  | exhausted (w : Int)
deriving DecidableEq, Repr

/-- Program counter of one `worker` goroutine. -/
inductive WorkerPc where
  | recv
  | build (job : Int)
  | wait
  | exited
deriving DecidableEq, Repr

/-- One `worker` goroutine: its `id` argument, its position in the body and its
private `requestWg` counter. -/
structure Worker where
  id : Int
  pc : WorkerPc
  requestWg : Int
deriving DecidableEq, Repr

/-- One request goroutine (`go func()` at line 89).  `worker` is the position of the
spawning worker in the pool (the goroutine captures that worker's `requestWg`),
`result` is `none` while `client.Do` has not returned. -/
structure Task where
  worker : Nat
  job : Int
  req : Request
  result : Option Outcome
deriving DecidableEq, Repr

/-- The two lines of the summary that do not depend on the clock (lines 62-63). -/
structure Summary where
  totalRequests : Int
  concurrencyLevel : Int
deriving DecidableEq, Repr

/-- Global state of a run.  `buf`, `cap`, `closed` are the `jobs` channel, `wg` the
outer WaitGroup.  `adds` and `dones` record, in order, every call of
`requestWg.Add(1)` and `requestWg.Done()` as (worker position, job). -/
structure State where
  pc : MainPc
  buf : List Int
  cap : Int
  closed : Bool
  wg : Int
  workers : List Worker
  tasks : List Task
  log : List LogLine
  summary : Option Summary
  adds : List (Nat × Int)
  dones : List (Nat × Int)
deriving DecidableEq, Repr

/-- A scheduling decision: the driver moves, the worker at a position moves, or the
`client.Do` of a request goroutine returns with the given outcome. -/
inductive Action where
  | main
  | worker (k : Nat)
  | task (i : Nat) (o : Outcome)
deriving DecidableEq, Repr

/-! ## Request construction (lines 77-86) -/

/-- What the program takes from its environment.
* `parse`: `url.Parse` of `net/url` followed by the normalisation `http.NewRequest`
  applies to the result, as the string form of the parsed URL; `none` is a parse error.
* `maxCap`: the largest capacity for which `make(chan int, n)` returns on the machine;
  above it the runtime panics (`makechan: size out of range`) or runs out of memory.
* `maxGo`: the number of worker goroutines the runtime can start on the machine; the
  `go` statement beyond it ends the process (out of memory).
A buffer of `n` ints takes `8 * n` bytes and a goroutine takes a stack, so both limits
are below the largest `int`; a process that runs `main` can start a goroutine. -/
structure Env where
  parse : String → Option String
  maxCap : Int
  maxGo : Int
  maxCap_lt : maxCap < 9223372036854775807
  maxGo_pos : 1 ≤ maxGo
  maxGo_lt : maxGo < 9223372036854775807

/-- Go `int` arithmetic: the value of `x` after wrapping into 64 bits, two's complement. -/
def wrap64 (x : Int) : Int :=
  (x + 9223372036854775808) % 18446744073709551616 - 9223372036854775808

/-- Token characters of HTTP (`httpguts.IsTokenRune`): letters, digits and
the punctuation with the codes of ! # $ % & (apostrophe) * + - . ^ _ (backquote) | ~. -/
def isTokenChar (c : Char) : Bool :=
  let n := c.toNat
  n = 33 || (35 ≤ n && n ≤ 39) || n = 42 || n = 43 || n = 45 || n = 46 ||
    (48 ≤ n && n ≤ 57) || (65 ≤ n && n ≤ 90) || (94 ≤ n && n ≤ 122) || n = 124 || n = 126

/-- The check `validMethod` of `net/http`: a non-empty string of token characters. -/
def validMethod (method : String) : Bool :=
  !method.data.isEmpty && method.data.all isTokenChar

/-- The method `http.NewRequest` works with: an empty method means GET. -/
def normMethod (method : String) : String :=
  if method = "" then "GET" else method

/-- ASCII control characters, which `url.Parse` refuses anywhere in a URL. -/
def isCTL (c : Char) : Bool :=
  c.toNat < 32 || c.toNat = 127

/-- The URL as `http.NewRequest` gets it: a string with a control character is an error,
any other string goes through the parser of the environment. -/
def urlParse (env : Env) (url : String) : Option String :=
  if url.data.any isCTL then none else env.parse url

/-- `http.NewRequest(method, url, body)`: an empty method becomes GET; an invalid method
or a URL that does not parse is an error; otherwise the descriptor has the method, the
parsed URL, the body and an empty header. -/
def NewRequest (env : Env) (method url : String) (body : Option String) : Option Request :=
  let m := normMethod method
  if validMethod m then
    match urlParse env url with
    | none => none
    | some u => some { Method := m, URL := u, Body := body, Header := [] }
  else none

/-- `http.NewRequest(method, url, nil)` returns a request for this method and URL. -/
def accepts (env : Env) (method url : String) : Bool :=
  (NewRequest env method url none).isSome

/-- `Header.Set(key, value)`: replaces the entry for `key`. -/
def headerSet (h : List (String × String)) (key value : String) : List (String × String) :=
  h.filter (fun e => e.1 ≠ key) ++ [(key, value)]

/-- Lines 77-86 of `worker`: construct the request with a nil body and set the two headers. -/
def buildRequest (env : Env) (method url : String) : Option Request :=
  match NewRequest env method url none with
  | none => none
  | some req =>
    let h1 := headerSet req.Header "User-Agent" "LoadTester/1.0"
    let h2 := headerSet h1 "Accept" "*/*"
    some { req with Header := h2 }

/-- The line logged by a request goroutine (lines 92-97). -/
def taskLine (id job : Int) : Outcome → LogLine
  | .doErr => .requestErr id job
  | .resp st => .completed id job st

/-! ## Transitions -/

/-- State in which `main` is entered. -/
def init : State :=
  { pc := .start, buf := [], cap := 0, closed := false, wg := 0, workers := [],
    tasks := [], log := [], summary := none, adds := [], dones := [] }

/-- One step of `main` (lines 21-65).  The HTTP client (lines 26-33) and the start time
(line 40) are values no transition reads.  `make(chan int, n)` panics for negative `n`
and for `n` above what the runtime can allocate; `go worker(...)` ends the process when
the runtime cannot start another goroutine; `w++` and `i++` wrap like Go `int`s;
a send blocks while the buffer is full (a send on a channel of capacity 0 would need
a receiver at the same moment; the driver never sends on one, since it sends only
when `numRequests >= 1`); `wg.Wait()` blocks while `wg` is not zero. -/
def stepMain (env : Env) (cfg : Config) (s : State) : Option State :=
  match s.pc with
  | .start =>
    if cfg.url = "" then some { s with pc := .fatal, log := s.log ++ [.fatalURL] }
    else some { s with pc := .makeChan }
  | .makeChan =>
    if cfg.numRequests < 0 ∨ env.maxCap < cfg.numRequests then some { s with pc := .panicked }
    else some { s with pc := .launch 1, cap := cfg.numRequests }
  | .launch w =>
    if w ≤ cfg.concurrency then
      if (s.workers.length : Int) < env.maxGo then
        some { s with pc := .launch (wrap64 (w + 1)), wg := s.wg + 1,
                      workers := s.workers ++ [{ id := w, pc := .recv, requestWg := 0 }] }
      else some { s with pc := .exhausted w }
    else some { s with pc := .send 1 }
  | .send i =>
    if i ≤ cfg.numRequests then
      if (s.buf.length : Int) < s.cap then
        some { s with pc := .send (wrap64 (i + 1)), buf := s.buf ++ [i] }
      else none
    else some { s with pc := .close }
  | .close => some { s with pc := .wait, closed := true }
  | .wait => if s.wg = 0 then some { s with pc := .report } else none
  | .report =>
    some { s with pc := .done,
                  summary := some { totalRequests := cfg.numRequests,
                                    concurrencyLevel := cfg.concurrency } }
  | .done => none
  | .fatal => none
  | .panicked => none
  | .exhausted _ => none

/-- One step of the worker at position `k` (lines 68-103).
* `recv`: `for range jobs` receives the head of the buffer and calls
  `requestWg.Add(1)`; on a closed and drained channel the loop ends.
* `build j`: `http.NewRequest` and either the error path (log, `Done`, `continue`)
  or the two `Header.Set` calls and `go func()`.
* `wait`: `requestWg.Wait()` followed by the deferred `wg.Done()`. -/
def stepWorker (env : Env) (cfg : Config) (s : State) (k : Nat) :
    Option State :=
  match s.workers[k]? with
  | none => none
  | some w =>
    match w.pc with
    | .recv =>
      match s.buf with
      | j :: rest =>
        some { s with buf := rest,
                      workers := s.workers.set k
                        { w with pc := .build j, requestWg := w.requestWg + 1 },
                      adds := s.adds ++ [(k, j)] }
      | [] =>
        if s.closed then some { s with workers := s.workers.set k { w with pc := .wait } }
        else none
    | .build j =>
      match buildRequest env cfg.method cfg.url with
      | none =>
        some { s with log := s.log ++ [.createErr w.id j],
                      workers := s.workers.set k
                        { w with pc := .recv, requestWg := w.requestWg - 1 },
                      dones := s.dones ++ [(k, j)] }
      | some req =>
        some { s with tasks := s.tasks ++ [{ worker := k, job := j, req := req, result := none }],
                      workers := s.workers.set k { w with pc := .recv } }
    | .wait =>
      if w.requestWg = 0 then
        some { s with wg := s.wg - 1, workers := s.workers.set k { w with pc := .exited } }
      else none
    | .exited => none

/-- The request goroutine at position `i` finishes (lines 90-97): `client.Do` returns
`o`, the matching line is logged and the deferred `requestWg.Done()` runs. -/
def stepTask (s : State) (i : Nat) (o : Outcome) : Option State :=
  match s.tasks[i]? with
  | none => none
  | some t =>
    match t.result with
    | some _ => none
    | none =>
      match s.workers[t.worker]? with
      | none => none
      | some w =>
        some { s with tasks := s.tasks.set i { t with result := some o },
                      log := s.log ++ [taskLine w.id t.job o],
                      workers := s.workers.set t.worker { w with requestWg := w.requestWg - 1 },
                      dones := s.dones ++ [(t.worker, t.job)] }

/-- One transition of the whole program; `none` when the chosen goroutine is blocked,
finished or does not exist. -/
def step (env : Env) (cfg : Config) (s : State) : Action → Option State
  | .main => stepMain env cfg s
  | .worker k => stepWorker env cfg s k
  | .task i o => stepTask s i o

/-- Execute a schedule from a state. -/
def run (env : Env) (cfg : Config) : State → List Action → Option State
  | s, [] => some s
  | s, a :: rest =>
    match step env cfg s a with
    | none => none
    | some s' => run env cfg s' rest

/-- States of `main` reachable under some schedule. -/
def Reachable (env : Env) (cfg : Config) (s : State) : Prop :=
  ∃ sched, run env cfg init sched = some s

/-! ## Observations -/

/-- Number of request goroutines whose `client.Do` has not returned. -/
def inFlight (s : State) : Nat :=
  s.tasks.countP (fun t => t.result.isNone)

/-- The identifiers `1, 2, ..., m` in sending order. -/
def jobIds (m : Nat) : List Int :=
  (List.range m).map (fun (i : Nat) => (i : Int) + 1)

/-- A sample environment for concrete runs: a parser that accepts every string without a
control character and leaves it as it is (so does `net/url` for the URLs of the sample
runs), the channel limit of the Go runtime on linux/amd64 (`8 * n` bytes within `2^48`
less the 96 bytes of the channel header), and room for a million worker goroutines. -/
def sampleEnv : Env :=
  { parse := fun u => some u, maxCap := 35184372088820, maxGo := 1000000,
    maxCap_lt := by decide, maxGo_pos := by decide, maxGo_lt := by decide }

/-! ## Accounting functions and the invariant -/

/-- Sum of a weight over a list. -/
def sumBy {α : Type} (f : α → Nat) (l : List α) : Nat :=
  (l.map f).sum

/-- Number of occurrences of `a` in `l`. -/
def occ {α : Type} [DecidableEq α] (a : α) (l : List α) : Nat :=
  sumBy (fun x => if x = a then 1 else 0) l

/-- Weight 1 for a worker that has not yet run its deferred `wg.Done()`. -/
def nonExited (w : Worker) : Nat :=
  if w.pc = .exited then 0 else 1

/-- Weight 1 for a worker between `requestWg.Add(1)` and the end of the loop body. -/
def building (w : Worker) : Nat :=
  match w.pc with
  | .build _ => 1
  | _ => 0

/-- Weight 1 for a request goroutine of worker `k` whose `client.Do` has not returned. -/
def pendingOf (k : Nat) (t : Task) : Nat :=
  if t.worker = k ∧ t.result = none then 1 else 0

/-- Weight 1 for an unfinished request goroutine of worker `k` for job `j`. -/
def pendingJob (k : Nat) (j : Int) (t : Task) : Nat :=
  if t.worker = k ∧ t.job = j ∧ t.result = none then 1 else 0

/-- Weight 1 for a finished request goroutine of worker `k` for job `j`. -/
def resolvedJob (k : Nat) (j : Int) (t : Task) : Nat :=
  if t.worker = k ∧ t.job = j ∧ t.result ≠ none then 1 else 0

/-- Weight 1 when the worker at position `k` is in the loop body for job `j`. -/
def buildingJob (ws : List Worker) (k : Nat) (j : Int) : Nat :=
  match ws[k]? with
  | some w => if w.pc = .build j then 1 else 0
  | none => 0

/-- The (worker position, job) pair of a request goroutine. -/
def Task.key (t : Task) : Nat × Int :=
  (t.worker, t.job)

/-- The (worker id, job) pair of a diagnostic line; the fatal line has none. -/
def lineKey : LogLine → Option (Int × Int)
  | .fatalURL => none
  | .createErr id j => some (id, j)
  | .requestErr id j => some (id, j)
  | .completed id j _ => some (id, j)

/-- The job a diagnostic line belongs to. -/
def lineJob : LogLine → Option Int
  | .fatalURL => none
  | .createErr _ j => some j
  | .requestErr _ j => some j
  | .completed _ j _ => some j

/-- A completion line ("Request completed with status ..."). -/
def isCompletion : LogLine → Bool
  | .completed _ _ _ => true
  | _ => false

/-- Number of jobs the driver has sent when it is at `pc`. -/
def sentCount (cfg : Config) : MainPc → Nat
  | .send i => (i - 1).toNat
  | .close => cfg.numRequests.toNat
  | .wait => cfg.numRequests.toNat
  | .report => cfg.numRequests.toNat
  | .done => cfg.numRequests.toNat
  | _ => 0

/-- Number of workers the driver has started when it is at `pc`. -/
def launchedCount (cfg : Config) : MainPc → Nat
  | .start => 0
  | .makeChan => 0
  | .fatal => 0
  | .panicked => 0
  | .launch w => (w - 1).toNat
  | .exhausted w => (w - 1).toNat
  | _ => cfg.concurrency.toNat

/-- The channel exists: the driver is past `make`. -/
def afterMake : MainPc → Bool
  | .start => false
  | .makeChan => false
  | .fatal => false
  | .panicked => false
  | _ => true

/-- The driver is past `close(jobs)`. -/
def closedAt : MainPc → Bool
  | .wait => true
  | .report => true
  | .done => true
  | _ => false

/-- The driver is past `wg.Wait()`. -/
def pastBarrier : MainPc → Bool
  | .report => true
  | .done => true
  | _ => false

/-- What the driver's position says about the flags and the loop counters. -/
def pcOk (env : Env) (cfg : Config) : MainPc → Prop
  | .start => True
  | .fatal => cfg.url = ""
  | .makeChan => cfg.url ≠ ""
  | .panicked => cfg.url ≠ "" ∧ (cfg.numRequests < 0 ∨ env.maxCap < cfg.numRequests)
  | .launch w =>
    cfg.url ≠ "" ∧ 0 ≤ cfg.numRequests ∧ 1 ≤ w ∧ w ≤ max cfg.concurrency 0 + 1 ∧
      cfg.numRequests ≤ env.maxCap
  | .exhausted w =>
    cfg.url ≠ "" ∧ 0 ≤ cfg.numRequests ∧ 1 ≤ w ∧ w ≤ cfg.concurrency ∧
      cfg.numRequests ≤ env.maxCap ∧ env.maxGo ≤ w - 1
  | .send i =>
    cfg.url ≠ "" ∧ 0 ≤ cfg.numRequests ∧ 1 ≤ i ∧ i ≤ cfg.numRequests + 1 ∧
      cfg.numRequests ≤ env.maxCap
  | _ => cfg.url ≠ "" ∧ 0 ≤ cfg.numRequests ∧ cfg.numRequests ≤ env.maxCap

/-- What a diagnostic line says about the run that logged it: the fatal line needs an
empty URL, a construction-error line a rejected (method, URL) pair, and a line of a
request goroutine a goroutine of that worker and job with the matching outcome. -/
def lineOk (env : Env) (cfg : Config) (tasks : List Task) :
    LogLine → Prop
  | .fatalURL => cfg.url = ""
  | .createErr _ _ => buildRequest env cfg.method cfg.url = none
  | .requestErr id j =>
    ∃ t ∈ tasks, (t.worker : Int) + 1 = id ∧ t.job = j ∧ t.result = some .doErr
  | .completed id j st =>
    ∃ t ∈ tasks, (t.worker : Int) + 1 = id ∧ t.job = j ∧ t.result = some (.resp st)

/-- The inductive invariant of the transition system. -/
structure Inv (env : Env) (cfg : Config) (s : State) : Prop where
  pc_ok : pcOk env cfg s.pc
  launched : s.workers.length = launchedCount cfg s.pc
  ids : ∀ (k : Nat) (w : Worker), s.workers[k]? = some w → w.id = (k : Int) + 1
  chan : s.adds.map Prod.snd ++ s.buf = jobIds (sentCount cfg s.pc)
  cap_eq : afterMake s.pc = true → s.cap = cfg.numRequests
  closed_eq : s.closed = closedAt s.pc
  wg_eq : s.wg = (sumBy nonExited s.workers : Nat)
  drained : ∀ (k : Nat) (w : Worker), s.workers[k]? = some w → (w.pc = .wait ∨ w.pc = .exited) →
    s.buf = [] ∧ s.closed = true
  counter : ∀ (k : Nat) (w : Worker), s.workers[k]? = some w →
    w.requestWg = ((building w + sumBy (pendingOf k) s.tasks : Nat) : Int)
  exited_zero : ∀ (k : Nat) (w : Worker), s.workers[k]? = some w → w.pc = .exited → w.requestWg = 0
  barrier : pastBarrier s.pc = true → ∀ w ∈ s.workers, w.pc = .exited
  summary_eq : s.summary =
    if s.pc = .done then
      some { totalRequests := cfg.numRequests, concurrencyLevel := cfg.concurrency }
    else none
  ledger : ∀ k j, occ (k, j) s.adds =
    buildingJob s.workers k j + occ (k, j) s.dones + sumBy (pendingJob k j) s.tasks
  adds_lt : ∀ p ∈ s.adds, p.1 < s.workers.length
  tasks_ok : ∀ t ∈ s.tasks,
    t.key ∈ s.adds ∧ buildRequest env cfg.method cfg.url = some t.req
  log_keys : s.log.filterMap lineKey = s.dones.map (fun p => ((p.1 : Int) + 1, p.2))
  accepted : (buildRequest env cfg.method cfg.url).isSome = true →
    ∀ k j, occ (k, j) s.dones = sumBy (resolvedJob k j) s.tasks
  log_kind : ∀ l ∈ s.log, lineOk env cfg s.tasks l
  task_line : ∀ t ∈ s.tasks, ∀ o, t.result = some o →
    taskLine ((t.worker : Int) + 1) t.job o ∈ s.log
  idle : s.adds = [] → s.closed = false → ∀ w ∈ s.workers, w.pc = .recv
  room : (s.workers.length : Int) ≤ env.maxGo

/-- Steps left for the driver alone, weighted so that every transition of the
program lowers `measure`. -/
def mainPot (cfg : Config) : MainPc → Nat
  | .start => 3 * cfg.concurrency.toNat + 4 * cfg.numRequests.toNat + 7
  | .makeChan => 3 * cfg.concurrency.toNat + 4 * cfg.numRequests.toNat + 6
  | .launch w => 3 * (cfg.concurrency - w + 1).toNat + 4 * cfg.numRequests.toNat + 5
  | .send i => 4 * (cfg.numRequests - i + 1).toNat + 4
  | .close => 3
  | .wait => 2
  | .report => 1
  | .done => 0
  | .fatal => 0
  | .panicked => 0
  | .exhausted _ => 0

/-- Steps left for a worker, not counting the jobs it will still receive. -/
def workerPot (w : Worker) : Nat :=
  match w.pc with
  | .recv => 2
  | .build _ => 4
  | .wait => 1
  | .exited => 0

/-- Weight 1 for a request goroutine that has not finished. -/
def taskPot (t : Task) : Nat :=
  if t.result = none then 1 else 0

/-- A bound on the number of transitions the program can still take from `s`. -/
def measure (cfg : Config) (s : State) : Nat :=
  mainPot cfg s.pc + 3 * s.buf.length + sumBy workerPot s.workers + sumBy taskPot s.tasks

/-- The run has ended: normally, by `log.Fatal`, by the panic of `make`, or because the
runtime could not start a worker. -/
def halted (s : State) : Bool :=
  match s.pc with
  | .done => true
  | .fatal => true
  | .panicked => true
  | .exhausted _ => true
  | _ => false

/-! ## Sample runs -/

/-- Two requests through one worker, as in `-url=http://example.test -n=2 -c=1`. -/
def demoCfg : Config :=
  { url := "http://example.test", numRequests := 2, concurrency := 1, method := "GET",
    timeout := 10 }

/-- The request of the sample runs: GET http://example.test with the two headers. -/
def demoRequest : Request :=
  { Method := "GET", URL := "http://example.test", Body := none,
    Header := [("User-Agent", "LoadTester/1.0"), ("Accept", "*/*")] }

/-- A complete schedule for `demoCfg`: the worker receives both jobs before either
request returns; the first request fails, the second gets a 404. -/
def demoSched : List Action :=
  [.main, .main, .main, .main, .main, .main, .worker 0, .worker 0, .worker 0, .worker 0,
   .main, .main, .worker 0, .task 1 (.resp 404), .task 0 .doErr, .worker 0, .main, .main]

/-- The state in which `demoSched` ends. -/
def demoFinal : State :=
  (run sampleEnv demoCfg init demoSched).getD init

/-- The state of `demoCfg` after the worker has spawned both request goroutines. -/
def demoBusy : State :=
  (run sampleEnv demoCfg init (demoSched.take 10)).getD init

/-- A method that is not a token: `http.NewRequest` rejects it. -/
def rejectedCfg : Config :=
  { url := "http://example.test", numRequests := 1, concurrency := 1, method := "BAD METHOD",
    timeout := 10 }

/-- A complete schedule for `rejectedCfg`. -/
def rejectedSched : List Action :=
  [.main, .main, .main, .main, .main, .main, .main, .worker 0, .worker 0, .worker 0,
   .worker 0, .main, .main]

/-- The state in which `rejectedSched` ends. -/
def rejectedFinal : State :=
  (run sampleEnv rejectedCfg init rejectedSched).getD init

/-- A negative request count, as in `-url=http://example.test -n=-1`. -/
def negativeCfg : Config :=
  { url := "http://example.test", numRequests := -1, concurrency := 10, method := "GET",
    timeout := 10 }

/-- The state of `negativeCfg` after `make(chan int, -1)`. -/
def negativeFinal : State :=
  (run sampleEnv negativeCfg init [.main, .main]).getD init

/-- No worker, as in `-url=http://example.test -n=2 -c=0`. -/
def idleCfg : Config :=
  { url := "http://example.test", numRequests := 2, concurrency := 0, method := "GET",
    timeout := 10 }

/-- The state in which the run of `idleCfg` ends. -/
def idleFinal : State :=
  (run sampleEnv idleCfg init (List.replicate 9 .main)).getD init

/-- The state of `demoCfg` right after the only worker has been started. -/
def demoLaunched : State :=
  (run sampleEnv demoCfg init (demoSched.take 3)).getD init

/-- The state of `demoCfg` after the worker has received job 1 and called `Add(1)`. -/
def demoGot : State :=
  (run sampleEnv demoCfg init (demoSched.take 7)).getD init

/-- The state of `demoCfg` with both requests finished and the worker at
`requestWg.Wait()`. -/
def demoWaiting : State :=
  (run sampleEnv demoCfg init (demoSched.take 15)).getD init

/-- A complete schedule for `demoCfg` in which both requests get a response, one with
status 200 and one with status 500. -/
def okSched : List Action :=
  [.main, .main, .main, .main, .main, .main, .worker 0, .worker 0, .worker 0, .worker 0,
   .main, .main, .worker 0, .task 1 (.resp 500), .task 0 (.resp 200), .worker 0, .main, .main]

/-- The state in which `okSched` ends. -/
def okFinal : State :=
  (run sampleEnv demoCfg init okSched).getD init

/-- The state of `rejectedCfg` after the worker has received job 1 and called `Add(1)`. -/
def rejectedGot : State :=
  (run sampleEnv rejectedCfg init (rejectedSched.take 8)).getD init

/-- An empty method, as in `-url=http://example.test -n=1 -c=1 -method=`. -/
def emptyMethodCfg : Config :=
  { url := "http://example.test", numRequests := 1, concurrency := 1, method := "",
    timeout := 10 }

/-- The state of `emptyMethodCfg` after the worker has spawned the request goroutine. -/
def emptyMethodBusy : State :=
  (run sampleEnv emptyMethodCfg init
    [.main, .main, .main, .main, .main, .worker 0, .worker 0]).getD init

/-- No worker and the largest `int` as request count, as in
`-url=http://example.test -n=9223372036854775807 -c=0`. -/
def hugeCfg : Config :=
  { url := "http://example.test", numRequests := 9223372036854775807, concurrency := 0,
    method := "GET", timeout := 10 }

/-- The state of `hugeCfg` after `make(chan int, 9223372036854775807)`. -/
def hugeFinal : State :=
  (run sampleEnv hugeCfg init [.main, .main]).getD init

/-! ## Lists -/

section Lists

variable {α : Type}

@[simp]
theorem sumBy_nil (f : α → Nat) : sumBy f [] = 0 := rfl

@[simp]
theorem sumBy_cons (f : α → Nat) (a : α) (l : List α) :
    sumBy f (a :: l) = f a + sumBy f l := by
  simp [sumBy]

@[simp]
theorem sumBy_append (f : α → Nat) (l₁ l₂ : List α) :
    sumBy f (l₁ ++ l₂) = sumBy f l₁ + sumBy f l₂ := by
  simp [sumBy]

theorem sumBy_set (f : α → Nat) (a b : α) :
    ∀ (l : List α) (i : Nat), l[i]? = some b → sumBy f (l.set i a) + f b = sumBy f l + f a := by
  intro l
  induction l with
  | nil => intro i h; simp at h
  | cons x xs ih =>
    intro i h
    cases i with
    | zero =>
      simp at h
      subst h
      simp [List.set]
      omega
    | succ i =>
      simp at h
      have := ih i h
      simp [List.set]
      omega

theorem sumBy_pos (f : α → Nat) :
    ∀ (l : List α), 0 < sumBy f l → ∃ (i : Nat) (b : α), l[i]? = some b ∧ 0 < f b := by
  intro l
  induction l with
  | nil => intro h; simp at h
  | cons x xs ih =>
    intro h
    by_cases hx : 0 < f x
    · exact ⟨0, x, by simp, hx⟩
    · have h2 : 0 < sumBy f xs := by
        simp at h
        omega
      obtain ⟨i, b, hb, hf⟩ := ih h2
      exact ⟨i + 1, b, by simpa using hb, hf⟩

theorem sumBy_eq_zero (f : α → Nat) (l : List α) (h : sumBy f l = 0) :
    ∀ b ∈ l, f b = 0 := by
  induction l with
  | nil => intro b hb; simp at hb
  | cons x xs ih =>
    intro b hb
    simp at h
    rcases List.mem_cons.mp hb with rfl | hb
    · exact h.1
    · exact ih h.2 b hb

theorem sumBy_zero_of (f : α → Nat) (l : List α) (h : ∀ b ∈ l, f b = 0) : sumBy f l = 0 := by
  induction l with
  | nil => rfl
  | cons x xs ih =>
    simp [h x (List.mem_cons_self _ _), ih (fun b hb => h b (List.mem_cons_of_mem _ hb))]

theorem sumBy_congr (f g : α → Nat) (l : List α) (h : ∀ b ∈ l, f b = g b) :
    sumBy f l = sumBy g l := by
  induction l with
  | nil => rfl
  | cons x xs ih =>
    simp [h x (List.mem_cons_self _ _), ih (fun b hb => h b (List.mem_cons_of_mem _ hb))]

theorem occ_eq_count [DecidableEq α] (a : α) (l : List α) : occ a l = List.count a l := by
  induction l with
  | nil => rfl
  | cons x xs ih =>
    have ih2 : sumBy (fun x => if x = a then 1 else 0) xs = List.count a xs := ih
    by_cases h : x = a
    · subst h
      simp [occ, ih2]
      omega
    · have h2 : (x == a) = false := by simpa using h
      simp [occ, ih2, h, List.count_cons, h2]

@[simp]
theorem occ_nil [DecidableEq α] (a : α) : occ a ([] : List α) = 0 := rfl

@[simp]
theorem occ_append [DecidableEq α] (a : α) (l₁ l₂ : List α) :
    occ a (l₁ ++ l₂) = occ a l₁ + occ a l₂ := by
  simp [occ]

@[simp]
theorem occ_singleton [DecidableEq α] (a b : α) :
    occ a [b] = if b = a then 1 else 0 := by
  simp [occ]

theorem occ_pos_iff [DecidableEq α] (a : α) (l : List α) : 0 < occ a l ↔ a ∈ l := by
  rw [occ_eq_count]
  exact List.count_pos_iff

theorem mem_set_of_ne (l : List α) (i : Nat) (a b t : α) (hb : l[i]? = some b)
    (ht : t ∈ l) (hne : t ≠ b) : t ∈ l.set i a := by
  obtain ⟨n, hn⟩ := List.mem_iff_getElem?.mp ht
  apply List.mem_iff_getElem?.mpr
  refine ⟨n, ?_⟩
  rw [List.getElem?_set]
  by_cases hin : i = n
  · subst hin
    rw [hb] at hn
    exact absurd (Option.some.inj hn).symm hne
  · simp [hin, hn]

theorem mem_of_mem_set (l : List α) (i : Nat) (a t : α) (ht : t ∈ l.set i a) :
    t = a ∨ t ∈ l := by
  obtain ⟨n, hn⟩ := List.mem_iff_getElem?.mp ht
  rw [List.getElem?_set] at hn
  by_cases hin : i = n
  · subst hin
    by_cases hlt : i < l.length
    · simp [hlt] at hn
      exact Or.inl hn.symm
    · simp [hlt] at hn
  · simp [hin] at hn
    exact Or.inr (List.getElem?_mem hn)

end Lists

/-! ## The invariant is inductive -/

variable {env : Env} {cfg : Config}

theorem inv_init : Inv env cfg init := by
  have hg := env.maxGo_pos
  constructor <;>
    simp [init, pcOk, launchedCount, sentCount, jobIds, afterMake, closedAt, pastBarrier,
      buildingJob]
  omega

theorem lineOk_mono {ts ts' : List Task} (l : LogLine) (hl : lineOk env cfg ts l)
    (ht : ∀ t ∈ ts, t.result ≠ none → t ∈ ts') : lineOk env cfg ts' l := by
  cases l with
  | fatalURL => exact hl
  | createErr id j => exact hl
  | requestErr id j =>
    obtain ⟨t, htm, h1, h2, h3⟩ := hl
    exact ⟨t, ht t htm (by simp [h3]), h1, h2, h3⟩
  | completed id j st =>
    obtain ⟨t, htm, h1, h2, h3⟩ := hl
    exact ⟨t, ht t htm (by simp [h3]), h1, h2, h3⟩

theorem jobIds_succ (m : Nat) : jobIds (m + 1) = jobIds m ++ [(m : Int) + 1] := by
  simp [jobIds, List.range_succ]

theorem inv_fatal {s : State} (h : Inv env cfg s) (hpc : s.pc = .start) (hu : cfg.url = "") :
    Inv env cfg { s with pc := .fatal, log := s.log ++ [.fatalURL] } :=
  { h with
    pc_ok := hu
    launched := by simpa [launchedCount, hpc] using h.launched
    chan := by simpa [sentCount, hpc] using h.chan
    cap_eq := by simp [afterMake]
    closed_eq := by simpa [closedAt, hpc] using h.closed_eq
    barrier := by simp [pastBarrier]
    summary_eq := by simpa [hpc] using h.summary_eq
    log_keys := by simpa [lineKey] using h.log_keys
    log_kind := by
      intro l hl
      rcases List.mem_append.mp hl with hl | hl
      · exact h.log_kind l hl
      · simp at hl; subst hl; exact hu
    task_line := fun t ht o ho => List.mem_append_left _ (h.task_line t ht o ho) }

theorem inv_toMake {s : State} (h : Inv env cfg s) (hpc : s.pc = .start) (hu : cfg.url ≠ "") :
    Inv env cfg { s with pc := .makeChan } :=
  { h with
    pc_ok := hu
    launched := by simpa [launchedCount, hpc] using h.launched
    chan := by simpa [sentCount, hpc] using h.chan
    cap_eq := by simp [afterMake]
    closed_eq := by simpa [closedAt, hpc] using h.closed_eq
    barrier := by simp [pastBarrier]
    summary_eq := by simpa [hpc] using h.summary_eq }

theorem getElem?_snoc {α : Type} (l : List α) (x b : α) (k : Nat)
    (h : (l ++ [x])[k]? = some b) : l[k]? = some b ∨ (k = l.length ∧ b = x) := by
  rw [List.getElem?_append] at h
  by_cases hk : k < l.length
  · simp [hk] at h
    exact Or.inl (List.getElem?_eq_some.mpr ⟨hk, h⟩)
  · simp [hk] at h
    by_cases hk2 : k - l.length = 0
    · rw [hk2] at h
      simp at h
      exact Or.inr ⟨by omega, h.symm⟩
    · obtain ⟨m, hm⟩ : ∃ m, k - l.length = m + 1 := ⟨k - l.length - 1, by omega⟩
      rw [hm] at h
      simp at h

theorem buildingJob_snoc (ws : List Worker) (x : Worker) (hx : x.pc = .recv) (k : Nat) (j : Int) :
    buildingJob (ws ++ [x]) k j = buildingJob ws k j := by
  unfold buildingJob
  by_cases hk : k < ws.length
  · rw [List.getElem?_append_left hk]
  · have h1 : ws[k]? = none := List.getElem?_eq_none (by omega)
    rw [h1]
    cases h2 : (ws ++ [x])[k]? with
    | none => rfl
    | some b =>
      rcases getElem?_snoc ws x b k h2 with h3 | ⟨_, h3⟩
      · rw [h1] at h3; cases h3
      · subst h3; simp [hx]

theorem inv_panic {s : State} (h : Inv env cfg s) (hpc : s.pc = .makeChan)
    (hn : cfg.numRequests < 0 ∨ env.maxCap < cfg.numRequests) :
    Inv env cfg { s with pc := .panicked } :=
  { h with
    pc_ok := ⟨by simpa [pcOk, hpc] using h.pc_ok, hn⟩
    launched := by simpa [launchedCount, hpc] using h.launched
    chan := by simpa [sentCount, hpc] using h.chan
    cap_eq := by simp [afterMake]
    closed_eq := by simpa [closedAt, hpc] using h.closed_eq
    barrier := by simp [pastBarrier]
    summary_eq := by simpa [hpc] using h.summary_eq }

theorem inv_made {s : State} (h : Inv env cfg s) (hpc : s.pc = .makeChan)
    (hn : ¬ (cfg.numRequests < 0 ∨ env.maxCap < cfg.numRequests)) :
    Inv env cfg { s with pc := .launch 1, cap := cfg.numRequests } :=
  { h with
    pc_ok := ⟨by simpa [pcOk, hpc] using h.pc_ok, by omega, by omega, by omega, by omega⟩
    launched := by simpa [launchedCount, hpc] using h.launched
    chan := by simpa [sentCount, hpc] using h.chan
    cap_eq := fun _ => rfl
    closed_eq := by simpa [closedAt, hpc] using h.closed_eq
    barrier := by simp [pastBarrier]
    summary_eq := by simpa [hpc] using h.summary_eq }

theorem inv_launch {s : State} {w : Int} (h : Inv env cfg s) (hpc : s.pc = .launch w)
    (hw : w ≤ cfg.concurrency) (hg : (s.workers.length : Int) < env.maxGo) :
    Inv env cfg { s with pc := .launch (w + 1), wg := s.wg + 1,
                             workers := s.workers ++ [{ id := w, pc := .recv, requestWg := 0 }] } := by
  have hp : cfg.url ≠ "" ∧ 0 ≤ cfg.numRequests ∧ 1 ≤ w ∧ w ≤ max cfg.concurrency 0 + 1 ∧
      cfg.numRequests ≤ env.maxCap := by
    simpa [pcOk, hpc] using h.pc_ok
  have hlen : s.workers.length = (w - 1).toNat := by simpa [launchedCount, hpc] using h.launched
  have hnone : ∀ t ∈ s.tasks, t.worker < s.workers.length := fun t ht =>
    h.adds_lt _ (h.tasks_ok t ht).1
  exact
  { h with
    pc_ok := ⟨hp.1, hp.2.1, by omega, by omega, hp.2.2.2.2⟩
    room := by
      simp only [List.length_append, List.length_singleton]
      push_cast
      omega
    idle := by
      intro ha hc w' hw'
      rcases List.mem_append.mp hw' with hw' | hw'
      · exact h.idle ha hc w' hw'
      · simp at hw'
        subst hw'
        rfl
    launched := by simp [launchedCount, hlen]; omega
    ids := by
      intro k w' hk
      rcases getElem?_snoc _ _ _ _ hk with hk | ⟨hk, rfl⟩
      · exact h.ids k w' hk
      · show w = (k : Int) + 1
        omega
    chan := by simpa [sentCount, hpc] using h.chan
    cap_eq := fun _ => h.cap_eq (by simp [hpc, afterMake])
    closed_eq := by simpa [closedAt, hpc] using h.closed_eq
    wg_eq := by
      have := h.wg_eq
      simp [nonExited]
      omega
    drained := by
      intro k w' hk hw'
      rcases getElem?_snoc _ _ _ _ hk with hk | ⟨_, rfl⟩
      · exact h.drained k w' hk hw'
      · simp at hw'
    counter := by
      intro k w' hk
      rcases getElem?_snoc _ _ _ _ hk with hk | ⟨hk, rfl⟩
      · exact h.counter k w' hk
      · have : sumBy (pendingOf k) s.tasks = 0 := by
          apply sumBy_zero_of
          intro t ht
          have := hnone t ht
          simp [pendingOf]
          omega
        simp [building, this]
    exited_zero := by
      intro k w' hk hw'
      rcases getElem?_snoc _ _ _ _ hk with hk | ⟨_, rfl⟩
      · exact h.exited_zero k w' hk hw'
      · simp at hw'
    barrier := by simp [pastBarrier]
    summary_eq := by simpa [hpc] using h.summary_eq
    ledger := by
      intro k j
      rw [buildingJob_snoc _ _ rfl]
      exact h.ledger k j
    adds_lt := by
      intro p hp
      have := h.adds_lt p hp
      simp
      omega }

theorem inv_exhaust {s : State} {w : Int} (h : Inv env cfg s) (hpc : s.pc = .launch w)
    (hw : w ≤ cfg.concurrency) (hg : ¬ (s.workers.length : Int) < env.maxGo) :
    Inv env cfg { s with pc := .exhausted w } := by
  have hp : cfg.url ≠ "" ∧ 0 ≤ cfg.numRequests ∧ 1 ≤ w ∧ w ≤ max cfg.concurrency 0 + 1 ∧
      cfg.numRequests ≤ env.maxCap := by
    simpa [pcOk, hpc] using h.pc_ok
  have hlen : s.workers.length = (w - 1).toNat := by simpa [launchedCount, hpc] using h.launched
  exact
  { h with
    pc_ok := ⟨hp.1, hp.2.1, hp.2.2.1, hw, hp.2.2.2.2, by omega⟩
    launched := hlen
    chan := by simpa [sentCount, hpc] using h.chan
    cap_eq := fun _ => h.cap_eq (by simp [hpc, afterMake])
    closed_eq := by simpa [closedAt, hpc] using h.closed_eq
    barrier := by simp [pastBarrier]
    summary_eq := by simpa [hpc] using h.summary_eq }

/-- The counter of a loop that still runs is below the largest `int`: `w++` does not wrap. -/
theorem wrap64_succ (x : Int) (h1 : 1 ≤ x) (h2 : x < 9223372036854775807) :
    wrap64 (x + 1) = x + 1 := by
  unfold wrap64
  omega

theorem inv_launched {s : State} {w : Int} (h : Inv env cfg s) (hpc : s.pc = .launch w)
    (hw : ¬ w ≤ cfg.concurrency) : Inv env cfg { s with pc := .send 1 } := by
  have hp : cfg.url ≠ "" ∧ 0 ≤ cfg.numRequests ∧ 1 ≤ w ∧ w ≤ max cfg.concurrency 0 + 1 ∧
      cfg.numRequests ≤ env.maxCap := by
    simpa [pcOk, hpc] using h.pc_ok
  have hlen : s.workers.length = (w - 1).toNat := by simpa [launchedCount, hpc] using h.launched
  exact
  { h with
    pc_ok := ⟨hp.1, hp.2.1, by omega, by omega, hp.2.2.2.2⟩
    launched := by simp [launchedCount, hlen]; omega
    chan := by simpa [sentCount, hpc] using h.chan
    cap_eq := fun _ => h.cap_eq (by simp [hpc, afterMake])
    closed_eq := by simpa [closedAt, hpc] using h.closed_eq
    barrier := by simp [pastBarrier]
    summary_eq := by simpa [hpc] using h.summary_eq }

theorem inv_send {s : State} {i : Int} (h : Inv env cfg s) (hpc : s.pc = .send i)
    (hi : i ≤ cfg.numRequests) :
    Inv env cfg { s with pc := .send (i + 1), buf := s.buf ++ [i] } := by
  have hp : cfg.url ≠ "" ∧ 0 ≤ cfg.numRequests ∧ 1 ≤ i ∧ i ≤ cfg.numRequests + 1 ∧
      cfg.numRequests ≤ env.maxCap := by
    simpa [pcOk, hpc] using h.pc_ok
  have hc : s.closed = false := by simpa [closedAt, hpc] using h.closed_eq
  exact
  { h with
    pc_ok := ⟨hp.1, hp.2.1, by omega, by omega, hp.2.2.2.2⟩
    launched := by simpa [launchedCount, hpc] using h.launched
    chan := by
      have h1 := h.chan
      simp only [hpc, sentCount] at h1
      have h2 : (i + 1 - 1).toNat = (i - 1).toNat + 1 := by omega
      have h3 : (((i - 1).toNat : Nat) : Int) + 1 = i := by omega
      show List.map Prod.snd s.adds ++ (s.buf ++ [i]) = jobIds (i + 1 - 1).toNat
      rw [h2, jobIds_succ, ← h1, h3, List.append_assoc]
    cap_eq := fun _ => h.cap_eq (by simp [hpc, afterMake])
    closed_eq := by simpa [closedAt, hpc] using h.closed_eq
    drained := by
      intro k w hk hw
      have := (h.drained k w hk hw).2
      rw [hc] at this
      cases this
    barrier := by simp [pastBarrier]
    summary_eq := by simpa [hpc] using h.summary_eq }

theorem inv_sent {s : State} {i : Int} (h : Inv env cfg s) (hpc : s.pc = .send i)
    (hi : ¬ i ≤ cfg.numRequests) : Inv env cfg { s with pc := .close } := by
  have hp : cfg.url ≠ "" ∧ 0 ≤ cfg.numRequests ∧ 1 ≤ i ∧ i ≤ cfg.numRequests + 1 ∧
      cfg.numRequests ≤ env.maxCap := by
    simpa [pcOk, hpc] using h.pc_ok
  exact
  { h with
    pc_ok := ⟨hp.1, hp.2.1, hp.2.2.2.2⟩
    launched := by simpa [launchedCount, hpc] using h.launched
    chan := by
      have h1 := h.chan
      simp only [hpc, sentCount] at h1
      have h2 : cfg.numRequests.toNat = (i - 1).toNat := by omega
      show List.map Prod.snd s.adds ++ s.buf = jobIds cfg.numRequests.toNat
      rw [h2, h1]
    cap_eq := fun _ => h.cap_eq (by simp [hpc, afterMake])
    closed_eq := by simpa [closedAt, hpc] using h.closed_eq
    barrier := by simp [pastBarrier]
    summary_eq := by simpa [hpc] using h.summary_eq }

theorem inv_close {s : State} (h : Inv env cfg s) (hpc : s.pc = .close) :
    Inv env cfg { s with pc := .wait, closed := true } := by
  have hp : cfg.url ≠ "" ∧ 0 ≤ cfg.numRequests ∧ cfg.numRequests ≤ env.maxCap := by
    simpa [pcOk, hpc] using h.pc_ok
  exact
  { h with
    pc_ok := hp
    launched := by simpa [launchedCount, hpc] using h.launched
    chan := by simpa [sentCount, hpc] using h.chan
    cap_eq := fun _ => h.cap_eq (by simp [hpc, afterMake])
    closed_eq := rfl
    idle := by
      intro _ hc
      cases hc
    drained := fun k w hk hw => ⟨(h.drained k w hk hw).1, rfl⟩
    barrier := by simp [pastBarrier]
    summary_eq := by simpa [hpc] using h.summary_eq }

theorem inv_barrier {s : State} (h : Inv env cfg s) (hpc : s.pc = .wait) (hwg : s.wg = 0) :
    Inv env cfg { s with pc := .report } := by
  have hp : cfg.url ≠ "" ∧ 0 ≤ cfg.numRequests ∧ cfg.numRequests ≤ env.maxCap := by
    simpa [pcOk, hpc] using h.pc_ok
  exact
  { h with
    pc_ok := hp
    launched := by simpa [launchedCount, hpc] using h.launched
    chan := by simpa [sentCount, hpc] using h.chan
    cap_eq := fun _ => h.cap_eq (by simp [hpc, afterMake])
    closed_eq := by simpa [closedAt, hpc] using h.closed_eq
    barrier := by
      intro _ w hw
      have h0 : sumBy nonExited s.workers = 0 := by
        have := h.wg_eq
        omega
      have := sumBy_eq_zero _ _ h0 w hw
      by_contra hne
      simp [nonExited, hne] at this
    summary_eq := by simpa [hpc] using h.summary_eq }

theorem inv_report {s : State} (h : Inv env cfg s) (hpc : s.pc = .report) :
    Inv env cfg { s with pc := .done,
                             summary := some { totalRequests := cfg.numRequests,
                                               concurrencyLevel := cfg.concurrency } } := by
  have hp : cfg.url ≠ "" ∧ 0 ≤ cfg.numRequests ∧ cfg.numRequests ≤ env.maxCap := by
    simpa [pcOk, hpc] using h.pc_ok
  exact
  { h with
    pc_ok := hp
    launched := by simpa [launchedCount, hpc] using h.launched
    chan := by simpa [sentCount, hpc] using h.chan
    cap_eq := fun _ => h.cap_eq (by simp [hpc, afterMake])
    closed_eq := by simpa [closedAt, hpc] using h.closed_eq
    barrier := fun _ => h.barrier (by simp [hpc, pastBarrier])
    summary_eq := by simp }

theorem getElem?_set_cases {α : Type} (l : List α) (k k' : Nat) (a b : α)
    (h : (l.set k a)[k']? = some b) : (k' = k ∧ b = a) ∨ (k' ≠ k ∧ l[k']? = some b) := by
  rw [List.getElem?_set] at h
  by_cases hk : k = k'
  · subst hk
    by_cases hlt : k < l.length
    · simp [hlt] at h
      exact Or.inl ⟨rfl, h.symm⟩
    · simp [hlt] at h
  · simp [hk] at h
    exact Or.inr ⟨fun e => hk e.symm, h⟩

theorem lt_of_getElem? {α : Type} {l : List α} {k : Nat} {a : α} (h : l[k]? = some a) :
    k < l.length := by
  obtain ⟨hk, _⟩ := List.getElem?_eq_some.mp h
  exact hk

theorem buildingJob_at {ws : List Worker} {k : Nat} {w : Worker} (hk : ws[k]? = some w)
    (j : Int) : buildingJob ws k j = if w.pc = .build j then 1 else 0 := by
  simp [buildingJob, hk]

theorem buildingJob_set {ws : List Worker} {k : Nat} {w : Worker} (hk : ws[k]? = some w)
    (w' : Worker) (k' : Nat) (j : Int) :
    buildingJob (ws.set k w') k' j =
      if k' = k then (if w'.pc = .build j then 1 else 0) else buildingJob ws k' j := by
  have hlt := lt_of_getElem? hk
  unfold buildingJob
  rw [List.getElem?_set]
  by_cases h : k = k'
  · subst h
    simp [hlt]
  · have h' : ¬ k' = k := fun e => h e.symm
    simp [h, h']

theorem sumBy_ge {α : Type} (f : α → Nat) (l : List α) (i : Nat) (b : α) (h : l[i]? = some b) :
    f b ≤ sumBy f l := by
  induction l generalizing i with
  | nil => simp at h
  | cons x xs ih =>
    cases i with
    | zero =>
      simp at h
      subst h
      simp
    | succ i =>
      simp at h
      have := ih i h
      simp
      omega

theorem inv_recv {s : State} {k : Nat} {w : Worker} {j : Int} {rest : List Int}
    (h : Inv env cfg s) (hk : s.workers[k]? = some w) (hw : w.pc = .recv)
    (hb : s.buf = j :: rest) :
    Inv env cfg
      { s with buf := rest,
               workers := s.workers.set k { w with pc := .build j, requestWg := w.requestWg + 1 },
               adds := s.adds ++ [(k, j)] } := by
  have hlt := lt_of_getElem? hk
  exact
  { h with
    launched := by simpa using h.launched
    room := by simpa using h.room
    idle := by
      intro ha
      simp at ha
    ids := by
      intro k' w' hk'
      rcases getElem?_set_cases _ _ _ _ _ hk' with ⟨rfl, rfl⟩ | ⟨_, hk'⟩
      · exact h.ids _ w hk
      · exact h.ids k' w' hk'
    chan := by
      have := h.chan
      rw [hb] at this
      simpa using this
    wg_eq := by
      have h1 := sumBy_set nonExited { w with pc := .build j, requestWg := w.requestWg + 1 } w
        s.workers k hk
      have h2 := h.wg_eq
      simp [nonExited, hw] at h1
      show s.wg = _
      rw [h1]
      exact h2
    drained := by
      intro k' w' hk' hw'
      rcases getElem?_set_cases _ _ _ _ _ hk' with ⟨rfl, rfl⟩ | ⟨_, hk'⟩
      · simp at hw'
      · have := (h.drained k' w' hk' hw').1
        rw [hb] at this
        cases this
    counter := by
      intro k' w' hk'
      rcases getElem?_set_cases _ _ _ _ _ hk' with ⟨rfl, rfl⟩ | ⟨_, hk'⟩
      · have := h.counter _ w hk
        simp [building, hw] at this
        simp [building, this]
        omega
      · exact h.counter k' w' hk'
    exited_zero := by
      intro k' w' hk' hw'
      rcases getElem?_set_cases _ _ _ _ _ hk' with ⟨rfl, rfl⟩ | ⟨_, hk'⟩
      · simp at hw'
      · exact h.exited_zero k' w' hk' hw'
    barrier := by
      intro hp
      have := h.barrier hp w (List.getElem?_mem hk)
      rw [hw] at this
      cases this
    ledger := by
      intro k' j'
      have h1 := h.ledger k' j'
      have h2 := buildingJob_set hk { w with pc := .build j, requestWg := w.requestWg + 1 } k' j'
      show occ (k', j') (s.adds ++ [(k, j)]) = buildingJob (s.workers.set k _) k' j' + _ + _
      rw [h2, occ_append, occ_singleton, h1]
      by_cases e1 : k' = k
      · subst e1
        have h3 := buildingJob_at hk j'
        simp [hw] at h3
        by_cases e2 : j' = j
        · subst e2
          simp [h3]
          omega
        · have e3 : ¬ j = j' := fun e => e2 e.symm
          simp [h3, e2, e3]
      · have e3 : ¬ k = k' := fun e => e1 e.symm
        simp [e1, e3]
    adds_lt := by
      intro p hp
      rcases List.mem_append.mp hp with hp | hp
      · simpa using h.adds_lt p hp
      · simp at hp
        subst hp
        simpa using hlt
    tasks_ok := fun t ht => ⟨List.mem_append_left _ (h.tasks_ok t ht).1, (h.tasks_ok t ht).2⟩ }

theorem inv_drain {s : State} {k : Nat} {w : Worker}
    (h : Inv env cfg s) (hk : s.workers[k]? = some w) (hw : w.pc = .recv)
    (hb : s.buf = []) (hc : s.closed = true) :
    Inv env cfg { s with workers := s.workers.set k { w with pc := .wait } } := by
  exact
  { h with
    launched := by simpa using h.launched
    room := by simpa using h.room
    idle := by
      intro _ hc'
      rw [hc] at hc'
      cases hc'
    ids := by
      intro k' w' hk'
      rcases getElem?_set_cases _ _ _ _ _ hk' with ⟨rfl, rfl⟩ | ⟨_, hk'⟩
      · exact h.ids _ w hk
      · exact h.ids k' w' hk'
    wg_eq := by
      have h1 := sumBy_set nonExited { w with pc := .wait } w s.workers k hk
      have h2 := h.wg_eq
      simp [nonExited, hw] at h1
      show s.wg = _
      rw [h1]
      exact h2
    drained := by
      intro k' w' hk' hw'
      rcases getElem?_set_cases _ _ _ _ _ hk' with ⟨rfl, rfl⟩ | ⟨_, hk'⟩
      · exact ⟨hb, hc⟩
      · exact h.drained k' w' hk' hw'
    counter := by
      intro k' w' hk'
      rcases getElem?_set_cases _ _ _ _ _ hk' with ⟨rfl, rfl⟩ | ⟨_, hk'⟩
      · have := h.counter _ w hk
        simp [building, hw] at this
        simp [building, this]
      · exact h.counter k' w' hk'
    exited_zero := by
      intro k' w' hk' hw'
      rcases getElem?_set_cases _ _ _ _ _ hk' with ⟨rfl, rfl⟩ | ⟨_, hk'⟩
      · simp at hw'
      · exact h.exited_zero k' w' hk' hw'
    barrier := by
      intro hp
      have := h.barrier hp w (List.getElem?_mem hk)
      rw [hw] at this
      cases this
    ledger := by
      intro k' j'
      have h1 := h.ledger k' j'
      have h2 := buildingJob_set hk { w with pc := .wait } k' j'
      show occ (k', j') s.adds = buildingJob (s.workers.set k _) k' j' + _ + _
      rw [h2, h1]
      by_cases e1 : k' = k
      · subst e1
        have h3 := buildingJob_at hk j'
        simp [hw] at h3
        simp [h3]
      · simp [e1]
    adds_lt := by
      intro p hp
      simpa using h.adds_lt p hp }

theorem inv_reject {s : State} {k : Nat} {w : Worker} {j : Int}
    (h : Inv env cfg s) (hk : s.workers[k]? = some w) (hw : w.pc = .build j)
    (hr : buildRequest env cfg.method cfg.url = none) :
    Inv env cfg
      { s with log := s.log ++ [.createErr w.id j],
               workers := s.workers.set k { w with pc := .recv, requestWg := w.requestWg - 1 },
               dones := s.dones ++ [(k, j)] } := by
  exact
  { h with
    launched := by simpa using h.launched
    room := by simpa using h.room
    idle := by
      intro ha hc'
      have := h.idle ha hc' w (List.getElem?_mem hk)
      rw [hw] at this
      cases this
    ids := by
      intro k' w' hk'
      rcases getElem?_set_cases _ _ _ _ _ hk' with ⟨rfl, rfl⟩ | ⟨_, hk'⟩
      · exact h.ids _ w hk
      · exact h.ids k' w' hk'
    wg_eq := by
      have h1 := sumBy_set nonExited { w with pc := .recv, requestWg := w.requestWg - 1 } w
        s.workers k hk
      have h2 := h.wg_eq
      simp [nonExited, hw] at h1
      show s.wg = _
      rw [h1]
      exact h2
    drained := by
      intro k' w' hk' hw'
      rcases getElem?_set_cases _ _ _ _ _ hk' with ⟨rfl, rfl⟩ | ⟨_, hk'⟩
      · simp at hw'
      · exact h.drained k' w' hk' hw'
    counter := by
      intro k' w' hk'
      rcases getElem?_set_cases _ _ _ _ _ hk' with ⟨rfl, rfl⟩ | ⟨_, hk'⟩
      · have := h.counter _ w hk
        simp [building, hw] at this
        simp [building, this]
      · exact h.counter k' w' hk'
    exited_zero := by
      intro k' w' hk' hw'
      rcases getElem?_set_cases _ _ _ _ _ hk' with ⟨rfl, rfl⟩ | ⟨_, hk'⟩
      · simp at hw'
      · exact h.exited_zero k' w' hk' hw'
    barrier := by
      intro hp
      have := h.barrier hp w (List.getElem?_mem hk)
      rw [hw] at this
      cases this
    ledger := by
      intro k' j'
      have h1 := h.ledger k' j'
      have h2 := buildingJob_set hk { w with pc := .recv, requestWg := w.requestWg - 1 } k' j'
      show occ (k', j') s.adds =
        buildingJob (s.workers.set k _) k' j' + occ (k', j') (s.dones ++ [(k, j)]) + _
      rw [h2, occ_append, occ_singleton, h1]
      by_cases e1 : k' = k
      · subst e1
        have h3 := buildingJob_at hk j'
        simp [hw] at h3
        by_cases e2 : j' = j
        · subst e2
          simp [h3]
          omega
        · have e3 : ¬ j = j' := fun e => e2 e.symm
          simp [h3, e2, e3]
      · have e3 : ¬ k = k' := fun e => e1 e.symm
        simp [e1, e3]
    adds_lt := by
      intro p hp
      simpa using h.adds_lt p hp
    log_keys := by
      have h1 := h.log_keys
      have h2 := h.ids k w hk
      simp [lineKey, h1, h2]
    accepted := by
      intro hsome
      rw [hr] at hsome
      cases hsome
    log_kind := by
      intro l hl
      rcases List.mem_append.mp hl with hl | hl
      · exact h.log_kind l hl
      · simp at hl
        subst hl
        exact hr
    task_line := fun t ht o ho => List.mem_append_left _ (h.task_line t ht o ho) }

theorem inv_spawn {s : State} {k : Nat} {w : Worker} {j : Int} {req : Request}
    (h : Inv env cfg s) (hk : s.workers[k]? = some w) (hw : w.pc = .build j)
    (hr : buildRequest env cfg.method cfg.url = some req) :
    Inv env cfg
      { s with tasks := s.tasks ++ [{ worker := k, job := j, req := req, result := none }],
               workers := s.workers.set k { w with pc := .recv } } := by
  exact
  { h with
    launched := by simpa using h.launched
    room := by simpa using h.room
    idle := by
      intro ha hc'
      have := h.idle ha hc' w (List.getElem?_mem hk)
      rw [hw] at this
      cases this
    ids := by
      intro k' w' hk'
      rcases getElem?_set_cases _ _ _ _ _ hk' with ⟨rfl, rfl⟩ | ⟨_, hk'⟩
      · exact h.ids _ w hk
      · exact h.ids k' w' hk'
    wg_eq := by
      have h1 := sumBy_set nonExited { w with pc := .recv } w s.workers k hk
      have h2 := h.wg_eq
      simp [nonExited, hw] at h1
      show s.wg = _
      rw [h1]
      exact h2
    drained := by
      intro k' w' hk' hw'
      rcases getElem?_set_cases _ _ _ _ _ hk' with ⟨rfl, rfl⟩ | ⟨_, hk'⟩
      · simp at hw'
      · exact h.drained k' w' hk' hw'
    counter := by
      intro k' w' hk'
      rcases getElem?_set_cases _ _ _ _ _ hk' with ⟨rfl, rfl⟩ | ⟨hne, hk'⟩
      · have := h.counter _ w hk
        simp [building, hw] at this
        simp [building, this, pendingOf]
        omega
      · have := h.counter k' w' hk'
        have hne' : ¬ k = k' := fun e => hne e.symm
        simp [this, pendingOf, hne']
    exited_zero := by
      intro k' w' hk' hw'
      rcases getElem?_set_cases _ _ _ _ _ hk' with ⟨rfl, rfl⟩ | ⟨_, hk'⟩
      · simp at hw'
      · exact h.exited_zero k' w' hk' hw'
    barrier := by
      intro hp
      have := h.barrier hp w (List.getElem?_mem hk)
      rw [hw] at this
      cases this
    ledger := by
      intro k' j'
      have h1 := h.ledger k' j'
      have h2 := buildingJob_set hk { w with pc := .recv } k' j'
      show occ (k', j') s.adds =
        buildingJob (s.workers.set k _) k' j' + _ + sumBy (pendingJob k' j') (s.tasks ++ [_])
      rw [h2, sumBy_append, h1]
      by_cases e1 : k' = k
      · subst e1
        have h3 := buildingJob_at hk j'
        simp [hw] at h3
        by_cases e2 : j' = j
        · subst e2
          simp [h3, pendingJob]
          omega
        · have e3 : ¬ j = j' := fun e => e2 e.symm
          simp [h3, e2, e3, pendingJob]
      · have e3 : ¬ k = k' := fun e => e1 e.symm
        simp [e1, e3, pendingJob]
    adds_lt := by
      intro p hp
      simpa using h.adds_lt p hp
    tasks_ok := by
      intro t ht
      rcases List.mem_append.mp ht with ht | ht
      · exact h.tasks_ok t ht
      · simp at ht
        subst ht
        refine ⟨?_, hr⟩
        apply (occ_pos_iff _ _).mp
        have h1 := h.ledger k j
        have h3 := buildingJob_at hk j
        simp [hw] at h3
        show 0 < occ (k, j) s.adds
        omega
    accepted := by
      intro hsome k' j'
      have := h.accepted hsome k' j'
      simp [this, resolvedJob]
    log_kind := by
      intro l hl
      exact lineOk_mono l (h.log_kind l hl) (fun t ht _ => List.mem_append_left _ ht)
    task_line := by
      intro t ht o ho
      rcases List.mem_append.mp ht with ht | ht
      · exact h.task_line t ht o ho
      · simp at ht
        subst ht
        cases ho }

theorem inv_exit {s : State} {k : Nat} {w : Worker}
    (h : Inv env cfg s) (hk : s.workers[k]? = some w) (hw : w.pc = .wait)
    (hz : w.requestWg = 0) :
    Inv env cfg
      { s with wg := s.wg - 1, workers := s.workers.set k { w with pc := .exited } } := by
  exact
  { h with
    launched := by simpa using h.launched
    room := by simpa using h.room
    idle := by
      intro ha hc'
      have := h.idle ha hc' w (List.getElem?_mem hk)
      rw [hw] at this
      cases this
    ids := by
      intro k' w' hk'
      rcases getElem?_set_cases _ _ _ _ _ hk' with ⟨rfl, rfl⟩ | ⟨_, hk'⟩
      · exact h.ids _ w hk
      · exact h.ids k' w' hk'
    wg_eq := by
      have h1 := sumBy_set nonExited { w with pc := .exited } w s.workers k hk
      have h2 := h.wg_eq
      simp [nonExited, hw] at h1
      show s.wg - 1 = _
      rw [h2, ← h1]
      simp
    drained := by
      intro k' w' hk' hw'
      rcases getElem?_set_cases _ _ _ _ _ hk' with ⟨rfl, rfl⟩ | ⟨_, hk'⟩
      · exact h.drained _ w hk (Or.inl hw)
      · exact h.drained k' w' hk' hw'
    counter := by
      intro k' w' hk'
      rcases getElem?_set_cases _ _ _ _ _ hk' with ⟨rfl, rfl⟩ | ⟨_, hk'⟩
      · have := h.counter _ w hk
        simp [building, hw] at this
        simp [building, this]
      · exact h.counter k' w' hk'
    exited_zero := by
      intro k' w' hk' hw'
      rcases getElem?_set_cases _ _ _ _ _ hk' with ⟨rfl, rfl⟩ | ⟨_, hk'⟩
      · exact hz
      · exact h.exited_zero k' w' hk' hw'
    barrier := by
      intro hp
      have := h.barrier hp w (List.getElem?_mem hk)
      rw [hw] at this
      cases this
    ledger := by
      intro k' j'
      have h1 := h.ledger k' j'
      have h2 := buildingJob_set hk { w with pc := .exited } k' j'
      show occ (k', j') s.adds = buildingJob (s.workers.set k _) k' j' + _ + _
      rw [h2, h1]
      by_cases e1 : k' = k
      · subst e1
        have h3 := buildingJob_at hk j'
        simp [hw] at h3
        simp [h3]
      · simp [e1]
    adds_lt := by
      intro p hp
      simpa using h.adds_lt p hp }

theorem inv_task {s : State} {i : Nat} {t : Task} {w : Worker} {o : Outcome}
    (h : Inv env cfg s) (hi : s.tasks[i]? = some t) (hr : t.result = none)
    (hk : s.workers[t.worker]? = some w) :
    Inv env cfg
      { s with tasks := s.tasks.set i { t with result := some o },
               log := s.log ++ [taskLine w.id t.job o],
               workers := s.workers.set t.worker { w with requestWg := w.requestWg - 1 },
               dones := s.dones ++ [(t.worker, t.job)] } := by
  have hid := h.ids _ w hk
  have hilt := lt_of_getElem? hi
  have hreq := (h.tasks_ok t (List.getElem?_mem hi)).2
  exact
  { h with
    launched := by simpa using h.launched
    room := by simpa using h.room
    idle := by
      intro ha hc' w' hw'
      rcases mem_of_mem_set _ _ _ _ hw' with rfl | hw'
      · exact h.idle ha hc' w (List.getElem?_mem hk)
      · exact h.idle ha hc' w' hw'
    ids := by
      intro k' w' hk'
      rcases getElem?_set_cases _ _ _ _ _ hk' with ⟨rfl, rfl⟩ | ⟨_, hk'⟩
      · exact hid
      · exact h.ids k' w' hk'
    wg_eq := by
      have h1 := sumBy_set nonExited { w with requestWg := w.requestWg - 1 } w
        s.workers t.worker hk
      have h2 := h.wg_eq
      simp [nonExited] at h1
      show s.wg = _
      rw [h1]
      exact h2
    drained := by
      intro k' w' hk' hw'
      rcases getElem?_set_cases _ _ _ _ _ hk' with ⟨rfl, rfl⟩ | ⟨_, hk'⟩
      · exact h.drained _ w hk hw'
      · exact h.drained k' w' hk' hw'
    counter := by
      intro k' w' hk'
      have h1 := sumBy_set (pendingOf k') { t with result := some o } t s.tasks i hi
      rcases getElem?_set_cases _ _ _ _ _ hk' with ⟨rfl, rfl⟩ | ⟨hne, hk'⟩
      · have := h.counter _ w hk
        simp [pendingOf, hr] at h1
        show w.requestWg - 1 = ((building w + sumBy (pendingOf t.worker) (s.tasks.set i _) : Nat) : Int)
        rw [this, ← h1]
        simp [building]
        omega
      · have := h.counter k' w' hk'
        have hne' : ¬ t.worker = k' := fun e => hne e.symm
        simp [pendingOf, hne'] at h1
        show w'.requestWg = ((building w' + sumBy (pendingOf k') (s.tasks.set i _) : Nat) : Int)
        rw [h1]
        exact this
    exited_zero := by
      intro k' w' hk' hw'
      rcases getElem?_set_cases _ _ _ _ _ hk' with ⟨rfl, rfl⟩ | ⟨_, hk'⟩
      · have h1 := h.counter _ w hk
        have h2 := h.exited_zero _ w hk hw'
        have h3 := sumBy_ge (pendingOf t.worker) s.tasks i t hi
        simp [pendingOf, hr] at h3
        omega
      · exact h.exited_zero k' w' hk' hw'
    barrier := by
      intro hp w' hw'
      rcases mem_of_mem_set _ _ _ _ hw' with rfl | hw'
      · exact h.barrier hp w (List.getElem?_mem hk)
      · exact h.barrier hp w' hw'
    ledger := by
      intro k' j'
      have h1 := h.ledger k' j'
      have h2 := buildingJob_set hk { w with requestWg := w.requestWg - 1 } k' j'
      have h3 := sumBy_set (pendingJob k' j') { t with result := some o } t s.tasks i hi
      have h4 := buildingJob_at hk j'
      show occ (k', j') s.adds =
        buildingJob (s.workers.set t.worker _) k' j' + occ (k', j') (s.dones ++ [(t.worker, t.job)])
          + sumBy (pendingJob k' j') (s.tasks.set i _)
      rw [h2, occ_append, occ_singleton, h1]
      by_cases e1 : k' = t.worker
      · subst e1
        by_cases e2 : j' = t.job
        · subst e2
          simp [pendingJob, hr] at h3
          simp [h4]
          omega
        · have e3 : ¬ t.job = j' := fun e => e2 e.symm
          simp [pendingJob, e3] at h3
          simp [h4, e2, e3, h3]
      · have e3 : ¬ t.worker = k' := fun e => e1 e.symm
        simp [pendingJob, e3] at h3
        simp [e1, e3, h3]
    adds_lt := by
      intro p hp
      simpa using h.adds_lt p hp
    tasks_ok := by
      intro t' ht'
      rcases mem_of_mem_set _ _ _ _ ht' with rfl | ht'
      · exact h.tasks_ok t (List.getElem?_mem hi)
      · exact h.tasks_ok t' ht'
    log_keys := by
      have h1 := h.log_keys
      cases o <;> simp [taskLine, lineKey, h1, hid]
    accepted := by
      intro hsome k' j'
      have h1 := h.accepted hsome k' j'
      have h3 := sumBy_set (resolvedJob k' j') { t with result := some o } t s.tasks i hi
      show occ (k', j') (s.dones ++ [(t.worker, t.job)]) =
        sumBy (resolvedJob k' j') (s.tasks.set i _)
      rw [occ_append, occ_singleton, h1]
      by_cases e1 : k' = t.worker
      · subst e1
        by_cases e2 : j' = t.job
        · subst e2
          simp [resolvedJob, hr] at h3
          simp
          omega
        · have e3 : ¬ t.job = j' := fun e => e2 e.symm
          simp [resolvedJob, e3] at h3
          simp [e2, e3, h3]
      · have e3 : ¬ t.worker = k' := fun e => e1 e.symm
        simp [resolvedJob, e3] at h3
        simp [e1, e3, h3]
    log_kind := by
      intro l hl
      rcases List.mem_append.mp hl with hl | hl
      · refine lineOk_mono l (h.log_kind l hl) ?_
        intro t' ht' hne
        refine mem_set_of_ne _ _ _ t t' hi ht' ?_
        intro e
        rw [e] at hne
        exact hne hr
      · simp at hl
        subst hl
        have hm : ({ t with result := some o } : Task) ∈ s.tasks.set i { t with result := some o } :=
          List.mem_set _ _ hilt _
        cases o with
        | doErr => exact ⟨_, hm, hid.symm, rfl, rfl⟩
        | resp st => exact ⟨_, hm, hid.symm, rfl, rfl⟩
    task_line := by
      intro t' ht' o' ho'
      rcases mem_of_mem_set _ _ _ _ ht' with rfl | ht'
      · apply List.mem_append_right
        simp at ho'
        subst ho'
        simp [hid]
      · exact List.mem_append_left _ (h.task_line t' ht' o' ho') }

theorem Inv.launch_nowrap {s : State} {w : Int} (h : Inv env cfg s) (hpc : s.pc = .launch w)
    (hg : (s.workers.length : Int) < env.maxGo) : wrap64 (w + 1) = w + 1 := by
  have hp : cfg.url ≠ "" ∧ 0 ≤ cfg.numRequests ∧ 1 ≤ w ∧ w ≤ max cfg.concurrency 0 + 1 ∧
      cfg.numRequests ≤ env.maxCap := by
    simpa [pcOk, hpc] using h.pc_ok
  have hlen : s.workers.length = (w - 1).toNat := by simpa [launchedCount, hpc] using h.launched
  have := env.maxGo_lt
  exact wrap64_succ w hp.2.2.1 (by omega)

theorem Inv.send_nowrap {s : State} {i : Int} (h : Inv env cfg s) (hpc : s.pc = .send i)
    (hi : i ≤ cfg.numRequests) : wrap64 (i + 1) = i + 1 := by
  have hp : cfg.url ≠ "" ∧ 0 ≤ cfg.numRequests ∧ 1 ≤ i ∧ i ≤ cfg.numRequests + 1 ∧
      cfg.numRequests ≤ env.maxCap := by
    simpa [pcOk, hpc] using h.pc_ok
  have := env.maxCap_lt
  exact wrap64_succ i hp.2.2.1 (by omega)

theorem inv_stepMain {s s' : State} (h : Inv env cfg s) (hs : stepMain env cfg s = some s') :
    Inv env cfg s' := by
  unfold stepMain at hs
  split at hs
  · split at hs
    · cases hs; exact inv_fatal h (by assumption) (by assumption)
    · cases hs; exact inv_toMake h (by assumption) (by assumption)
  · split at hs
    · cases hs; exact inv_panic h (by assumption) (by assumption)
    · cases hs; exact inv_made h (by assumption) (by assumption)
  · rename_i w hpc
    split at hs
    · rename_i hw
      split at hs
      · rename_i hg
        cases hs
        rw [h.launch_nowrap hpc hg]
        exact inv_launch h hpc hw hg
      · rename_i hg
        cases hs
        exact inv_exhaust h hpc hw hg
    · cases hs; exact inv_launched h (by assumption) (by assumption)
  · rename_i i hpc
    split at hs
    · rename_i hi
      split at hs
      · cases hs
        rw [h.send_nowrap hpc hi]
        exact inv_send h hpc hi
      · cases hs
    · cases hs; exact inv_sent h (by assumption) (by assumption)
  · cases hs; exact inv_close h (by assumption)
  · split at hs
    · cases hs; exact inv_barrier h (by assumption) (by assumption)
    · cases hs
  · cases hs; exact inv_report h (by assumption)
  · cases hs
  · cases hs
  · cases hs
  · cases hs

theorem inv_stepWorker {s s' : State} {k : Nat} (h : Inv env cfg s)
    (hs : stepWorker env cfg s k = some s') : Inv env cfg s' := by
  unfold stepWorker at hs
  split at hs
  · cases hs
  · rename_i w hk
    split at hs
    · rename_i hw
      split at hs
      · rename_i j rest hb
        cases hs; exact inv_recv h hk hw hb
      · rename_i hb
        split at hs
        · rename_i hc
          cases hs; exact inv_drain h hk hw hb hc
        · cases hs
    · rename_i j hw
      split at hs
      · rename_i hr
        cases hs; exact inv_reject h hk hw hr
      · rename_i req hr
        cases hs; exact inv_spawn h hk hw hr
    · rename_i hw
      split at hs
      · rename_i hz
        cases hs; exact inv_exit h hk hw hz
      · cases hs
    · cases hs

theorem inv_stepTask {s s' : State} {i : Nat} {o : Outcome} (h : Inv env cfg s)
    (hs : stepTask s i o = some s') : Inv env cfg s' := by
  unfold stepTask at hs
  split at hs
  · cases hs
  · rename_i t hi
    split at hs
    · cases hs
    · rename_i hr
      split at hs
      · cases hs
      · rename_i w hk
        cases hs; exact inv_task h hi hr hk

theorem inv_step {s s' : State} {a : Action} (h : Inv env cfg s)
    (hs : step env cfg s a = some s') : Inv env cfg s' := by
  cases a with
  | main => exact inv_stepMain h hs
  | worker k => exact inv_stepWorker h hs
  | task i o => exact inv_stepTask h hs

theorem inv_run {sched : List Action} : ∀ {s s' : State}, Inv env cfg s →
    run env cfg s sched = some s' → Inv env cfg s' := by
  induction sched with
  | nil =>
    intro s s' h hs
    simp [run] at hs
    subst hs
    exact h
  | cons a rest ih =>
    intro s s' h hs
    simp only [run] at hs
    split at hs
    · cases hs
    · rename_i s1 h1
      exact ih (inv_step h h1) hs

theorem inv_reachable {s : State} (h : Reachable env cfg s) : Inv env cfg s := by
  obtain ⟨sched, hs⟩ := h
  exact inv_run inv_init hs

theorem measure_stepMain {s s' : State} (h : Inv env cfg s)
    (hs : stepMain env cfg s = some s') : measure cfg s' < measure cfg s := by
  unfold stepMain at hs
  split at hs
  · rename_i hpc
    split at hs <;> cases hs <;> simp [measure, mainPot, hpc]
  · rename_i hpc
    split at hs <;> cases hs <;> simp [measure, mainPot, hpc]
  · rename_i w hpc
    split at hs
    · rename_i hw
      split at hs
      · rename_i hg
        cases hs
        rw [h.launch_nowrap hpc hg]
        simp [measure, mainPot, hpc, workerPot]
        omega
      · cases hs
        simp [measure, mainPot, hpc]
    · cases hs
      simp [measure, mainPot, hpc]
      omega
  · rename_i i hpc
    split at hs
    · rename_i hi
      split at hs
      · cases hs
        rw [h.send_nowrap hpc hi]
        simp [measure, mainPot, hpc]
        omega
      · cases hs
    · cases hs
      simp [measure, mainPot, hpc]
  · rename_i hpc
    cases hs
    simp [measure, mainPot, hpc]
  · rename_i hpc
    split at hs
    · cases hs
      simp [measure, mainPot, hpc]
    · cases hs
  · rename_i hpc
    cases hs
    simp [measure, mainPot, hpc]
  · cases hs
  · cases hs
  · cases hs
  · cases hs

theorem measure_stepWorker {s s' : State} {k : Nat}
    (hs : stepWorker env cfg s k = some s') : measure cfg s' < measure cfg s := by
  unfold stepWorker at hs
  split at hs
  · cases hs
  · rename_i w hk
    split at hs
    · rename_i hw
      split at hs
      · rename_i j rest hb
        cases hs
        have h1 := sumBy_set workerPot { w with pc := .build j, requestWg := w.requestWg + 1 } w
          s.workers k hk
        simp [workerPot, hw] at h1
        simp [measure, hb]
        omega
      · rename_i hb
        split at hs
        · cases hs
          have h1 := sumBy_set workerPot { w with pc := .wait } w s.workers k hk
          simp [workerPot, hw] at h1
          simp [measure]
          omega
        · cases hs
    · rename_i j hw
      split at hs
      · cases hs
        have h1 := sumBy_set workerPot { w with pc := .recv, requestWg := w.requestWg - 1 } w
          s.workers k hk
        simp [workerPot, hw] at h1
        simp [measure]
        omega
      · rename_i req hr
        cases hs
        have h1 := sumBy_set workerPot { w with pc := .recv } w s.workers k hk
        simp [workerPot, hw] at h1
        simp [measure, taskPot]
        omega
    · rename_i hw
      split at hs
      · cases hs
        have h1 := sumBy_set workerPot { w with pc := .exited } w s.workers k hk
        simp [workerPot, hw] at h1
        simp [measure]
        omega
      · cases hs
    · cases hs

theorem measure_stepTask {s s' : State} {i : Nat} {o : Outcome}
    (hs : stepTask s i o = some s') : measure cfg s' < measure cfg s := by
  unfold stepTask at hs
  split at hs
  · cases hs
  · rename_i t hi
    split at hs
    · cases hs
    · rename_i hr
      split at hs
      · cases hs
      · rename_i w hk
        cases hs
        have h1 := sumBy_set workerPot { w with requestWg := w.requestWg - 1 } w
          s.workers t.worker hk
        have h2 := sumBy_set taskPot { t with result := some o } t s.tasks i hi
        simp [workerPot] at h1
        simp [taskPot, hr] at h2
        simp [measure]
        omega

theorem measure_step {s s' : State} {a : Action} (h : Inv env cfg s)
    (hs : step env cfg s a = some s') : measure cfg s' < measure cfg s := by
  cases a with
  | main => exact measure_stepMain h hs
  | worker k => exact measure_stepWorker hs
  | task i o => exact measure_stepTask hs

theorem measure_run {sched : List Action} : ∀ {s s' : State}, Inv env cfg s →
    run env cfg s sched = some s' → sched.length + measure cfg s' ≤ measure cfg s := by
  induction sched with
  | nil =>
    intro s s' _ hs
    simp [run] at hs
    subst hs
    simp
  | cons a rest ih =>
    intro s s' h hs
    simp only [run] at hs
    split at hs
    · cases hs
    · rename_i s1 h1
      have := ih (inv_step h h1) hs
      have := measure_step h h1
      simp
      omega

theorem run_append {l₁ : List Action} : ∀ {s s1 : State} (l₂ : List Action),
    run env cfg s l₁ = some s1 → run env cfg s (l₁ ++ l₂) = run env cfg s1 l₂ := by
  induction l₁ with
  | nil =>
    intro s s1 l₂ hs
    simp [run] at hs
    subst hs
    rfl
  | cons a rest ih =>
    intro s s1 l₂ hs
    simp only [run] at hs
    split at hs
    · cases hs
    · rename_i s2 h2
      simp only [List.cons_append, run, h2]
      exact ih l₂ hs

theorem jobIds_length (m : Nat) : (jobIds m).length = m := by
  simp [jobIds]

theorem progress {s : State} (h : Inv env cfg s) (hh : halted s = false) :
    ∃ a s', step env cfg s a = some s' := by
  cases hpc : s.pc with
  | start =>
    by_cases hu : cfg.url = ""
    · exact ⟨.main, _, by simp [step, stepMain, hpc, hu]; rfl⟩
    · exact ⟨.main, _, by simp [step, stepMain, hpc, hu]; rfl⟩
  | makeChan =>
    by_cases hn : cfg.numRequests < 0 ∨ env.maxCap < cfg.numRequests
    · exact ⟨.main, { s with pc := .panicked }, by
        simp only [step, stepMain, hpc]
        rw [if_pos hn]⟩
    · exact ⟨.main, { s with pc := .launch 1, cap := cfg.numRequests }, by
        simp only [step, stepMain, hpc]
        rw [if_neg hn]⟩
  | launch w =>
    by_cases hw : w ≤ cfg.concurrency
    · by_cases hg : (s.workers.length : Int) < env.maxGo
      · exact ⟨.main, _, by simp [step, stepMain, hpc, hw, hg]; rfl⟩
      · exact ⟨.main, _, by simp [step, stepMain, hpc, hw, hg]; rfl⟩
    · exact ⟨.main, _, by simp [step, stepMain, hpc, hw]; rfl⟩
  | exhausted w => simp [halted, hpc] at hh
  | send i =>
    by_cases hi : i ≤ cfg.numRequests
    · have hp : cfg.url ≠ "" ∧ 0 ≤ cfg.numRequests ∧ 1 ≤ i ∧ i ≤ cfg.numRequests + 1 ∧
          cfg.numRequests ≤ env.maxCap := by
        simpa [pcOk, hpc] using h.pc_ok
      have hcap := h.cap_eq (by simp [hpc, afterMake])
      have hlen := congrArg List.length h.chan
      simp [hpc, sentCount, jobIds_length] at hlen
      have hlt : (s.buf.length : Int) < s.cap := by omega
      exact ⟨.main, _, by simp [step, stepMain, hpc, hi, hlt]; rfl⟩
    · exact ⟨.main, _, by simp [step, stepMain, hpc, hi]; rfl⟩
  | close => exact ⟨.main, _, by simp [step, stepMain, hpc]; rfl⟩
  | report => exact ⟨.main, _, by simp [step, stepMain, hpc]; rfl⟩
  | done => simp [halted, hpc] at hh
  | fatal => simp [halted, hpc] at hh
  | panicked => simp [halted, hpc] at hh
  | wait =>
    by_cases hwg : s.wg = 0
    · exact ⟨.main, _, by simp [step, stepMain, hpc, hwg]; rfl⟩
    · have hpos : 0 < sumBy nonExited s.workers := by
        have := h.wg_eq
        omega
      obtain ⟨k, w, hk, hne⟩ := sumBy_pos _ _ hpos
      have hc : s.closed = true := by simpa [closedAt, hpc] using h.closed_eq
      cases hw : w.pc with
      | recv =>
        cases hb : s.buf with
        | nil => exact ⟨.worker k, _, by simp [step, stepWorker, hk, hw, hb, hc]; rfl⟩
        | cons j rest => exact ⟨.worker k, _, by simp [step, stepWorker, hk, hw, hb]; rfl⟩
      | build j =>
        cases hr : buildRequest env cfg.method cfg.url with
        | none => exact ⟨.worker k, _, by simp [step, stepWorker, hk, hw, hr]; rfl⟩
        | some req => exact ⟨.worker k, _, by simp [step, stepWorker, hk, hw, hr]; rfl⟩
      | exited => simp [nonExited, hw] at hne
      | wait =>
        by_cases hz : w.requestWg = 0
        · exact ⟨.worker k, _, by simp [step, stepWorker, hk, hw, hz]; rfl⟩
        · have hcnt := h.counter k w hk
          simp [building, hw] at hcnt
          have hpos2 : 0 < sumBy (pendingOf k) s.tasks := by omega
          obtain ⟨i, t, hi, ht⟩ := sumBy_pos _ _ hpos2
          have ht2 : t.worker = k ∧ t.result = none := by
            by_contra hcon
            simp [pendingOf, hcon] at ht
          have hk2 : s.workers[t.worker]? = some w := by rw [ht2.1]; exact hk
          exact ⟨.task i .doErr, _, by simp [step, stepTask, hi, ht2.2, hk2]; rfl⟩

theorem completes_aux (m : Nat) : ∀ (s : State), Inv env cfg s → measure cfg s ≤ m →
    ∃ sched s', run env cfg s sched = some s' ∧ halted s' = true := by
  induction m with
  | zero =>
    intro s h hm
    by_cases hh : halted s = true
    · exact ⟨[], s, rfl, hh⟩
    · obtain ⟨a, s1, h1⟩ := progress h (by simpa using hh)
      have hlt : measure cfg s1 < measure cfg s := measure_step h h1
      omega
  | succ m ih =>
    intro s h hm
    by_cases hh : halted s = true
    · exact ⟨[], s, rfl, hh⟩
    · obtain ⟨a, s1, h1⟩ := progress h (by simpa using hh)
      have hlt : measure cfg s1 < measure cfg s := measure_step h h1
      obtain ⟨sched, s', hr, hs'⟩ := ih s1 (inv_step h h1) (by omega)
      exact ⟨a :: sched, s', by simp [run, h1, hr], hs'⟩

theorem jobIds_nodup (m : Nat) : (jobIds m).Nodup := by
  unfold jobIds
  apply List.Nodup.map _ (List.nodup_range m)
  intro a b hab
  simp at hab
  exact hab

theorem occ_le_one_of_nodup {α : Type} [DecidableEq α] (a : α) (l : List α) (h : l.Nodup) :
    occ a l ≤ 1 := by
  rw [occ_eq_count]
  exact List.nodup_iff_count_le_one.mp h a

theorem occ_le_occ_map {α β : Type} [DecidableEq α] [DecidableEq β] (f : α → β) (a : α)
    (l : List α) : occ a l ≤ occ (f a) (l.map f) := by
  induction l with
  | nil => simp
  | cons x xs ih =>
    have e : x :: xs = [x] ++ xs := rfl
    rw [e, List.map_append, occ_append, occ_append]
    have : occ a [x] ≤ occ (f a) (List.map f [x]) := by
      simp
      by_cases hx : x = a
      · simp [hx]
      · simp [hx]
    omega

theorem perm_of_occ {α : Type} [DecidableEq α] (l₁ l₂ : List α)
    (h : ∀ a, occ a l₁ = occ a l₂) : l₁.Perm l₂ := by
  rw [List.perm_iff_count]
  intro a
  rw [← occ_eq_count, ← occ_eq_count]
  exact h a

theorem Inv.occ_adds_le_one {s : State} (h : Inv env cfg s) (k : Nat) (j : Int) :
    occ (k, j) s.adds ≤ 1 := by
  have h1 := occ_le_occ_map Prod.snd (k, j) s.adds
  have h2 : (s.adds.map Prod.snd).Nodup := by
    have := jobIds_nodup (sentCount cfg s.pc)
    rw [← h.chan] at this
    exact (List.nodup_append.mp this).1
  have h3 := occ_le_one_of_nodup j _ h2
  simp at h1
  omega

theorem Inv.worker_of_task {s : State} (h : Inv env cfg s) (t : Task) (ht : t ∈ s.tasks) :
    ∃ w, s.workers[t.worker]? = some w := by
  have := h.adds_lt _ (h.tasks_ok t ht).1
  exact ⟨_, List.getElem?_eq_getElem this⟩

theorem Inv.pending_pos {s : State} (h : Inv env cfg s) (t : Task) (ht : t ∈ s.tasks)
    (hr : t.result = none) (w : Worker) (hk : s.workers[t.worker]? = some w) :
    1 ≤ w.requestWg := by
  obtain ⟨i, hi⟩ := List.mem_iff_getElem?.mp ht
  have h1 := sumBy_ge (pendingOf t.worker) s.tasks i t hi
  have h2 := h.counter _ w hk
  simp [pendingOf, hr] at h1
  omega

theorem Inv.resolved_of_exited {s : State} (h : Inv env cfg s) (t : Task) (ht : t ∈ s.tasks)
    (w : Worker) (hk : s.workers[t.worker]? = some w) (hw : w.pc = .exited) :
    t.result ≠ none := by
  intro hr
  have h1 := h.pending_pos t ht hr w hk
  have h2 := h.exited_zero _ w hk hw
  omega

theorem Inv.resolved_past_barrier {s : State} (h : Inv env cfg s)
    (hp : pastBarrier s.pc = true) (t : Task) (ht : t ∈ s.tasks) : t.result ≠ none := by
  obtain ⟨w, hk⟩ := h.worker_of_task t ht
  exact h.resolved_of_exited t ht w hk (h.barrier hp w (List.getElem?_mem hk))

theorem sumBy_resolved_eq (k : Nat) (j : Int) (ts : List Task)
    (h : ∀ t ∈ ts, t.result ≠ none) :
    sumBy (resolvedJob k j) ts = occ (k, j) (ts.map Task.key) := by
  induction ts with
  | nil => rfl
  | cons x xs ih =>
    have e : x :: xs = [x] ++ xs := rfl
    have hx := h x (List.mem_cons_self _ _)
    rw [e, List.map_append, occ_append, sumBy_append,
      ih (fun t ht => h t (List.mem_cons_of_mem _ ht))]
    simp [resolvedJob, Task.key, hx]

theorem sumBy_pending_zero (k : Nat) (j : Int) (ts : List Task)
    (h : ∀ t ∈ ts, t.key = (k, j) → t.result ≠ none) : sumBy (pendingJob k j) ts = 0 := by
  apply sumBy_zero_of
  intro t ht
  by_cases hk : t.key = (k, j)
  · have := h t ht hk
    simp [pendingJob, this]
  · have : ¬ (t.worker = k ∧ t.job = j) := by
      intro e
      apply hk
      simp [Task.key, e.1, e.2]
    simp only [pendingJob]
    rw [if_neg]
    intro e
    exact this ⟨e.1, e.2.1⟩

theorem Inv.buildingJob_zero {s : State} (h : Inv env cfg s) (hp : pastBarrier s.pc = true)
    (k : Nat) (j : Int) : buildingJob s.workers k j = 0 := by
  unfold buildingJob
  cases hk : s.workers[k]? with
  | none => rfl
  | some w =>
    have := h.barrier hp w (List.getElem?_mem hk)
    simp [this]

/-- Past the outer barrier every `Add` has its `Done`. -/
theorem Inv.adds_perm_dones {s : State} (h : Inv env cfg s) (hp : pastBarrier s.pc = true) :
    s.adds.Perm s.dones := by
  apply perm_of_occ
  intro p
  obtain ⟨k, j⟩ := p
  have h1 := h.ledger k j
  have h2 := h.buildingJob_zero hp k j
  have h3 := sumBy_pending_zero k j s.tasks (fun t ht _ => h.resolved_past_barrier hp t ht)
  omega

/-- Past the outer barrier, when the request can be built, the request goroutines are
the received jobs. -/
theorem Inv.tasks_perm_adds {s : State} (h : Inv env cfg s) (hp : pastBarrier s.pc = true)
    (ha : (buildRequest env cfg.method cfg.url).isSome = true) :
    (s.tasks.map Task.key).Perm s.adds := by
  refine List.Perm.trans ?_ (h.adds_perm_dones hp).symm
  apply perm_of_occ
  intro p
  obtain ⟨k, j⟩ := p
  rw [h.accepted ha k j, sumBy_resolved_eq k j s.tasks (fun t ht => h.resolved_past_barrier hp t ht)]

/-- With at least one worker, past the outer barrier the channel is drained: every
identifier has been received, in sending order. -/
theorem Inv.received_all {s : State} (h : Inv env cfg s) (hp : pastBarrier s.pc = true)
    (hc : 1 ≤ cfg.concurrency) :
    s.buf = [] ∧ s.adds.map Prod.snd = jobIds cfg.numRequests.toNat := by
  have hlen : s.workers.length = cfg.concurrency.toNat := by
    have := h.launched
    cases hpc : s.pc <;> simp [hpc, pastBarrier, launchedCount] at hp this ⊢ <;> exact this
  have h0 : 0 < s.workers.length := by omega
  have hk : s.workers[0]? = some s.workers[0] := List.getElem?_eq_getElem h0
  have hw := h.barrier hp _ (List.getElem?_mem hk)
  have hb := (h.drained 0 _ hk (Or.inr hw)).1
  have hch := h.chan
  have hs : sentCount cfg s.pc = cfg.numRequests.toNat := by
    cases hpc : s.pc <;> simp [hpc, pastBarrier, sentCount] at hp ⊢
  rw [hb, hs] at hch
  exact ⟨hb, by simpa using hch⟩

theorem buildRequest_isSome (env : Env) (method url : String) :
    (buildRequest env method url).isSome = accepts env method url := by
  unfold buildRequest accepts
  cases NewRequest env method url none <;> rfl

theorem buildRequest_eq (env : Env) (method url : String) (req : Request)
    (h : buildRequest env method url = some req) :
    accepts env method url = true ∧ validMethod (normMethod method) = true ∧
      ∃ u, urlParse env url = some u ∧
        req = { Method := normMethod method, URL := u, Body := none,
                Header := [("User-Agent", "LoadTester/1.0"), ("Accept", "*/*")] } := by
  have ha : accepts env method url = true := by
    rw [← buildRequest_isSome, h]
    rfl
  refine ⟨ha, ?_⟩
  unfold buildRequest NewRequest at h
  by_cases hv : validMethod (normMethod method) = true
  · refine ⟨hv, ?_⟩
    cases hu : urlParse env url with
    | none => simp [hv, hu] at h
    | some u =>
      simp [hv, hu, headerSet] at h
      exact ⟨u, rfl, h.symm⟩
  · simp [hv] at h

theorem lineJob_eq (l : LogLine) : lineJob l = (lineKey l).map Prod.snd := by
  cases l <;> rfl

theorem map_lineJob_eq (log : List LogLine) (h : ∀ l ∈ log, l ≠ .fatalURL) :
    log.map lineJob = (log.filterMap lineKey).map (fun p => some p.2) := by
  induction log with
  | nil => rfl
  | cons x xs ih =>
    have hx := h x (List.mem_cons_self _ _)
    have ih' := ih (fun l hl => h l (List.mem_cons_of_mem _ hl))
    cases x with
    | fatalURL => exact absurd rfl hx
    | createErr id j => simp [lineJob, lineKey, ih']
    | requestErr id j => simp [lineJob, lineKey, ih']
    | completed id j st => simp [lineJob, lineKey, ih']

theorem Inv.url_ne {s : State} (h : Inv env cfg s) (hp : afterMake s.pc = true) :
    cfg.url ≠ "" ∧ 0 ≤ cfg.numRequests ∧ cfg.numRequests ≤ env.maxCap := by
  have h1 := h.pc_ok
  cases hpc : s.pc with
  | start => rw [hpc] at hp; cases hp
  | makeChan => rw [hpc] at hp; cases hp
  | fatal => rw [hpc] at hp; cases hp
  | panicked => rw [hpc] at hp; cases hp
  | launch w =>
    rw [hpc] at h1
    exact ⟨h1.1, h1.2.1, h1.2.2.2.2⟩
  | exhausted w =>
    rw [hpc] at h1
    exact ⟨h1.1, h1.2.1, h1.2.2.2.2.1⟩
  | send i =>
    rw [hpc] at h1
    exact ⟨h1.1, h1.2.1, h1.2.2.2.2⟩
  | close => rw [hpc] at h1; exact h1
  | wait => rw [hpc] at h1; exact h1
  | report => rw [hpc] at h1; exact h1
  | done => rw [hpc] at h1; exact h1

theorem Inv.log_jobs {s : State} (h : Inv env cfg s) (hu : cfg.url ≠ "") :
    s.log.map lineJob = s.dones.map (fun p => some p.2) := by
  have h1 : ∀ l ∈ s.log, l ≠ .fatalURL := by
    intro l hl e
    subst e
    exact hu (h.log_kind _ hl)
  rw [map_lineJob_eq _ h1, h.log_keys]
  simp

theorem demoFinal_reachable : Reachable sampleEnv demoCfg demoFinal :=
  ⟨demoSched, by decide⟩

theorem demoBusy_reachable : Reachable sampleEnv demoCfg demoBusy :=
  ⟨demoSched.take 10, by decide⟩

theorem rejectedFinal_reachable : Reachable sampleEnv rejectedCfg rejectedFinal :=
  ⟨rejectedSched, by decide⟩

theorem negativeFinal_reachable : Reachable sampleEnv negativeCfg negativeFinal :=
  ⟨[.main, .main], by decide⟩

theorem idleFinal_reachable : Reachable sampleEnv idleCfg idleFinal :=
  ⟨List.replicate 9 .main, by decide⟩

theorem demoLaunched_reachable : Reachable sampleEnv demoCfg demoLaunched :=
  ⟨demoSched.take 3, by decide⟩

theorem tasks_nil_of_rejected {s : State} (h : Inv env cfg s)
    (ha : accepts env cfg.method cfg.url = false) : s.tasks = [] := by
  cases hts : s.tasks with
  | nil => rfl
  | cons t ts =>
    have ht : t ∈ s.tasks := by rw [hts]; exact List.mem_cons_self _ _
    have h1 := (h.tasks_ok t ht).2
    have h2 := buildRequest_isSome env cfg.method cfg.url
    rw [h1, ha] at h2
    cases h2

/-- C1 (amended): for numRequests >= 1 and concurrency >= 1, in every completed run each
identifier 1..numRequests has been received exactly once (in sending order); when
`http.NewRequest` accepts the (method, URL) pair the request goroutines spawned are exactly
one per job, numRequests in total, and when it rejects the pair none is spawned. -/
theorem C1_jobs_received_once (env : Env) (cfg : Config) (s : State)
    (hn : 1 ≤ cfg.numRequests) (hc : 1 ≤ cfg.concurrency)
    (hr : Reachable env cfg s) (hd : s.pc = .done) :
    s.adds.map Prod.snd = jobIds cfg.numRequests.toNat ∧
    (accepts env cfg.method cfg.url = true →
      (s.tasks.map Task.job).Perm (jobIds cfg.numRequests.toNat) ∧
      (s.tasks.length : Int) = cfg.numRequests) ∧
    (accepts env cfg.method cfg.url = false → s.tasks = []) := by
  have h := inv_reachable hr
  have hp : pastBarrier s.pc = true := by simp [hd, pastBarrier]
  have hrec := (h.received_all hp hc).2
  refine ⟨hrec, ?_, tasks_nil_of_rejected h⟩
  intro ha
  have hsome : (buildRequest env cfg.method cfg.url).isSome = true := by
    rw [buildRequest_isSome]; exact ha
  have hperm := (h.tasks_perm_adds hp hsome).map Prod.snd
  have hmap : (s.tasks.map Task.key).map Prod.snd = s.tasks.map Task.job := by
    simp [Task.key]
  rw [hmap, hrec] at hperm
  refine ⟨hperm, ?_⟩
  have hlen := hperm.length_eq
  simp [jobIds_length] at hlen
  omega

/-- C1 (witness): the amended statement at the two-request, one-worker sample run. -/
theorem C1_jobs_received_once_witness :
    (1 ≤ demoCfg.numRequests ∧ 1 ≤ demoCfg.concurrency ∧ demoFinal.pc = .done) ∧
    (demoFinal.adds.map Prod.snd = jobIds demoCfg.numRequests.toNat ∧
    (accepts sampleEnv demoCfg.method demoCfg.url = true →
      (demoFinal.tasks.map Task.job).Perm (jobIds demoCfg.numRequests.toNat) ∧
      (demoFinal.tasks.length : Int) = demoCfg.numRequests) ∧
    (accepts sampleEnv demoCfg.method demoCfg.url = false → demoFinal.tasks = [])) :=
  ⟨⟨by decide, by decide, by decide⟩,
   C1_jobs_received_once sampleEnv demoCfg demoFinal (by decide) (by decide)
     ⟨demoSched, by decide⟩ (by decide)⟩

/-- C1 (counterexample): with the method "BAD METHOD" the run of one request through one
worker completes, the job is received, a construction error is logged, and no request
goroutine is spawned: the number of tasks is 0, not numRequests = 1. -/
theorem C1_counterexample :
    (1 ≤ rejectedCfg.numRequests ∧ 1 ≤ rejectedCfg.concurrency) ∧
    run sampleEnv rejectedCfg init rejectedSched = some rejectedFinal ∧
    rejectedFinal.pc = .done ∧ rejectedFinal.adds = [(0, 1)] ∧
    rejectedFinal.log = [.createErr 1 1] ∧ rejectedFinal.tasks = [] ∧
    (rejectedFinal.tasks.length : Int) ≠ rejectedCfg.numRequests := by
  decide

theorem Inv.occ_dones_le {s : State} (h : Inv env cfg s) (k : Nat) (j : Int) :
    occ (k, j) s.dones ≤ occ (k, j) s.adds := by
  have := h.ledger k j
  omega

theorem Inv.done_once {s : State} (h : Inv env cfg s) (t : Task) (ht : t ∈ s.tasks)
    (hr : t.result ≠ none) : occ t.key s.dones = 1 := by
  have hsome : (buildRequest env cfg.method cfg.url).isSome = true := by
    rw [(h.tasks_ok t ht).2]; rfl
  have h1 := h.accepted hsome t.worker t.job
  obtain ⟨i, hi⟩ := List.mem_iff_getElem?.mp ht
  have h2 := sumBy_ge (resolvedJob t.worker t.job) s.tasks i t hi
  have h3 := h.occ_dones_le t.worker t.job
  have h4 := h.occ_adds_le_one t.worker t.job
  simp [resolvedJob, hr] at h2
  show occ (t.worker, t.job) s.dones = 1
  omega

/-- C2: with concurrency >= 1, in every reachable state of `main`: while some spawned
request goroutine has not yet run its `requestWg.Done()`, `wg.Wait()` cannot return (the
driver's step at the barrier is blocked); and once the driver is past the barrier
(computing or printing the metrics) every spawned request goroutine has finished and its
worker's counter has received exactly one `Done` for it. -/
theorem C2_barrier_after_all_requests (env : Env) (cfg : Config)
    (s : State) (_hc : 1 ≤ cfg.concurrency) (hr : Reachable env cfg s) :
    ((∃ t ∈ s.tasks, t.result = none) → s.pc = .wait → step env cfg s .main = none) ∧
    (pastBarrier s.pc = true → ∀ t ∈ s.tasks, t.result ≠ none ∧ occ t.key s.dones = 1) := by
  have h := inv_reachable hr
  constructor
  · rintro ⟨t, ht, hres⟩ hpc
    obtain ⟨w, hk⟩ := h.worker_of_task t ht
    have h1 := h.pending_pos t ht hres w hk
    have h2 : w.pc ≠ .exited := by
      intro e
      have := h.exited_zero _ w hk e
      omega
    have h3 := sumBy_ge nonExited s.workers t.worker w hk
    have h4 := h.wg_eq
    simp [nonExited, h2] at h3
    have h5 : s.wg ≠ 0 := by omega
    simp [step, stepMain, hpc, h5]
  · intro hp t ht
    have h1 := h.resolved_past_barrier hp t ht
    exact ⟨h1, h.done_once t ht h1⟩

/-- C2 (witness): the statement at the end of the two-request sample run. -/
theorem C2_barrier_after_all_requests_witness :
    (1 ≤ demoCfg.concurrency ∧ pastBarrier demoFinal.pc = true ∧ demoFinal.tasks.length = 2) ∧
    (((∃ t ∈ demoFinal.tasks, t.result = none) → demoFinal.pc = .wait →
        step sampleEnv demoCfg demoFinal .main = none) ∧
     (pastBarrier demoFinal.pc = true →
        ∀ t ∈ demoFinal.tasks, t.result ≠ none ∧ occ t.key demoFinal.dones = 1)) :=
  ⟨⟨by decide, by decide, by decide⟩,
   C2_barrier_after_all_requests sampleEnv demoCfg demoFinal (by decide)
     ⟨demoSched, by decide⟩⟩

/-- C3: for every worker of every reachable state, whatever the outcomes so far.
Accounting: the counter `requestWg` is never negative and equals the number of the
worker's unresolved jobs (the job in the loop body plus its unfinished request
goroutines); every job the worker received got exactly one `Add(1)` and at most one
`Done()`, and exactly one `Done()` once it is resolved; with no unresolved job the counter
is zero, and then `requestWg.Wait()` returns and the worker ends.
Transitions: receiving job `j` raises the counter by one and records the `Add`; a failed
construction logs the error, lowers the counter by one and records the `Done`; a
successful construction spawns the request goroutine and leaves the counter as it is; the
end of a request goroutine, with either outcome, lowers the counter by one and records the
`Done`; a finished request goroutine takes no further step. -/
theorem C3_inner_counter_balanced (env : Env) (cfg : Config)
    (s : State) (k : Nat) (w : Worker) (hr : Reachable env cfg s)
    (hk : s.workers[k]? = some w) :
    0 ≤ w.requestWg ∧
    w.requestWg = ((building w + sumBy (pendingOf k) s.tasks : Nat) : Int) ∧
    (∀ j, (k, j) ∈ s.adds →
      occ (k, j) s.adds = 1 ∧ occ (k, j) s.dones ≤ 1 ∧
      (w.pc ≠ .build j → (∀ t ∈ s.tasks, t.key = (k, j) → t.result ≠ none) →
        occ (k, j) s.dones = 1)) ∧
    (building w = 0 → (∀ t ∈ s.tasks, t.worker = k → t.result ≠ none) → w.requestWg = 0) ∧
    (w.pc = .wait → w.requestWg = 0 →
      step env cfg s (.worker k) =
        some { s with wg := s.wg - 1,
                      workers := s.workers.set k { w with pc := .exited } }) ∧
    (∀ j rest, w.pc = .recv → s.buf = j :: rest →
      step env cfg s (.worker k) =
        some { s with buf := rest,
                      workers := s.workers.set k
                        { w with pc := .build j, requestWg := w.requestWg + 1 },
                      adds := s.adds ++ [(k, j)] }) ∧
    (∀ j, w.pc = .build j → accepts env cfg.method cfg.url = false →
      step env cfg s (.worker k) =
        some { s with log := s.log ++ [.createErr w.id j],
                      workers := s.workers.set k
                        { w with pc := .recv, requestWg := w.requestWg - 1 },
                      dones := s.dones ++ [(k, j)] }) ∧
    (∀ j req, w.pc = .build j → buildRequest env cfg.method cfg.url = some req →
      step env cfg s (.worker k) =
        some { s with tasks := s.tasks ++ [{ worker := k, job := j, req := req,
                                              result := none }],
                      workers := s.workers.set k { w with pc := .recv } }) ∧
    (∀ i t o, s.tasks[i]? = some t → t.worker = k → t.result = none →
      step env cfg s (.task i o) =
        some { s with tasks := s.tasks.set i { t with result := some o },
                      log := s.log ++ [taskLine w.id t.job o],
                      workers := s.workers.set k { w with requestWg := w.requestWg - 1 },
                      dones := s.dones ++ [(k, t.job)] }) ∧
    (∀ i t o, s.tasks[i]? = some t → t.result ≠ none → step env cfg s (.task i o) = none) := by
  have h := inv_reachable hr
  have hcnt := h.counter k w hk
  refine ⟨by omega, hcnt, ?_, ?_, ?_, ?_, ?_, ?_, ?_, ?_⟩
  · intro j hj
    have h1 := (occ_pos_iff _ _).mpr hj
    have h2 := h.occ_adds_le_one k j
    have h3 := h.occ_dones_le k j
    refine ⟨by omega, by omega, ?_⟩
    intro hb hres
    have h4 := h.ledger k j
    have h5 := sumBy_pending_zero k j s.tasks hres
    have h6 := buildingJob_at hk j
    simp [hb] at h6
    omega
  · intro hb hres
    have : sumBy (pendingOf k) s.tasks = 0 := by
      apply sumBy_zero_of
      intro t ht
      by_cases e : t.worker = k
      · simp [pendingOf, hres t ht e]
      · simp [pendingOf, e]
    rw [hcnt, hb, this]
    rfl
  · intro hw hz
    simp [step, stepWorker, hk, hw, hz]
  · intro j rest hw hb
    simp [step, stepWorker, hk, hw, hb]
  · intro j hw ha
    have hb : buildRequest env cfg.method cfg.url = none := by
      have := buildRequest_isSome env cfg.method cfg.url
      rw [ha] at this
      cases e : buildRequest env cfg.method cfg.url with
      | none => rfl
      | some r => rw [e] at this; cases this
    simp [step, stepWorker, hk, hw, hb]
  · intro j req hw hb
    simp [step, stepWorker, hk, hw, hb]
  · intro i t o hi ht hres
    subst ht
    simp [step, stepTask, hi, hres, hk]
  · intro i t o hi hres
    cases hr2 : t.result with
    | none => exact absurd hr2 hres
    | some o2 => simp [step, stepTask, hi, hr2]

/-- C3 (witness): the statement applied to the worker of three sample states: with both
requests finished and the worker at `requestWg.Wait()` (each job has its one `Add` and one
`Done`, the counter is 0 and the wait returns); with both requests in flight (the counter
is 2 and the end of a request lowers it to 1); and holding a job whose request cannot be
built (the error path lowers the counter from 1 to 0). -/
theorem C3_inner_counter_balanced_witness :
    (demoWaiting.workers[0]? = some { id := 1, pc := .wait, requestWg := 0 } ∧
      demoWaiting.adds = [(0, 1), (0, 2)] ∧ demoWaiting.dones = [(0, 2), (0, 1)] ∧
      demoBusy.workers[0]? = some { id := 1, pc := .recv, requestWg := 2 } ∧
      demoBusy.tasks.map Task.result = [none, none] ∧
      rejectedGot.workers[0]? = some { id := 1, pc := .build 1, requestWg := 1 } ∧
      accepts sampleEnv rejectedCfg.method rejectedCfg.url = false) ∧
    (occ (0, 1) demoWaiting.adds = 1 ∧ occ (0, 1) demoWaiting.dones = 1 ∧
      occ (0, 2) demoWaiting.adds = 1 ∧ occ (0, 2) demoWaiting.dones = 1 ∧
      step sampleEnv demoCfg demoWaiting (.worker 0) =
        some { demoWaiting with
                 wg := demoWaiting.wg - 1,
                 workers := demoWaiting.workers.set 0
                   { id := 1, pc := .exited, requestWg := 0 } }) ∧
    ((2 : Int) = ((building { id := 1, pc := .recv, requestWg := 2 } +
        sumBy (pendingOf 0) demoBusy.tasks : Nat) : Int) ∧
      (∀ o, step sampleEnv demoCfg demoBusy (.task 1 o) =
        some { demoBusy with
                 tasks := demoBusy.tasks.set 1
                   { worker := 0, job := 2, req := demoRequest, result := some o },
                 log := demoBusy.log ++ [taskLine 1 2 o],
                 workers := demoBusy.workers.set 0 { id := 1, pc := .recv, requestWg := 2 - 1 },
                 dones := demoBusy.dones ++ [(0, 2)] })) ∧
    (step sampleEnv rejectedCfg rejectedGot (.worker 0) =
      some { rejectedGot with
               log := rejectedGot.log ++ [.createErr 1 1],
               workers := rejectedGot.workers.set 0
                 { id := 1, pc := .recv, requestWg := 1 - 1 },
               dones := rejectedGot.dones ++ [(0, 1)] }) :=
  ⟨⟨by decide, by decide, by decide, by decide, by decide, by decide, by decide⟩,
   ⟨((C3_inner_counter_balanced sampleEnv demoCfg demoWaiting 0
        { id := 1, pc := .wait, requestWg := 0 } ⟨demoSched.take 15, by decide⟩
        (by decide)).2.2.1 1 (by decide)).1,
    ((C3_inner_counter_balanced sampleEnv demoCfg demoWaiting 0
        { id := 1, pc := .wait, requestWg := 0 } ⟨demoSched.take 15, by decide⟩
        (by decide)).2.2.1 1 (by decide)).2.2 (by decide) (by decide),
    ((C3_inner_counter_balanced sampleEnv demoCfg demoWaiting 0
        { id := 1, pc := .wait, requestWg := 0 } ⟨demoSched.take 15, by decide⟩
        (by decide)).2.2.1 2 (by decide)).1,
    ((C3_inner_counter_balanced sampleEnv demoCfg demoWaiting 0
        { id := 1, pc := .wait, requestWg := 0 } ⟨demoSched.take 15, by decide⟩
        (by decide)).2.2.1 2 (by decide)).2.2 (by decide) (by decide),
    (C3_inner_counter_balanced sampleEnv demoCfg demoWaiting 0
        { id := 1, pc := .wait, requestWg := 0 } ⟨demoSched.take 15, by decide⟩
        (by decide)).2.2.2.2.1 rfl rfl⟩,
   ⟨(C3_inner_counter_balanced sampleEnv demoCfg demoBusy 0
        { id := 1, pc := .recv, requestWg := 2 } ⟨demoSched.take 10, by decide⟩
        (by decide)).2.1,
    fun o => (C3_inner_counter_balanced sampleEnv demoCfg demoBusy 0
        { id := 1, pc := .recv, requestWg := 2 } ⟨demoSched.take 10, by decide⟩
        (by decide)).2.2.2.2.2.2.2.2.1 1
        { worker := 0, job := 2, req := demoRequest, result := none } o
        (by decide) (by decide) (by decide)⟩,
   (C3_inner_counter_balanced sampleEnv rejectedCfg rejectedGot 0
        { id := 1, pc := .build 1, requestWg := 1 } ⟨rejectedSched.take 8, by decide⟩
        (by decide)).2.2.2.2.2.2.1 1 rfl (by decide)⟩

theorem Inv.adds_jobs_nodup {s : State} (h : Inv env cfg s) :
    (s.adds.map Prod.snd).Nodup := by
  have := jobIds_nodup (sentCount cfg s.pc)
  rw [← h.chan] at this
  exact (List.nodup_append.mp this).1

theorem Inv.dones_jobs_nodup {s : State} (h : Inv env cfg s) :
    (s.dones.map Prod.snd).Nodup := by
  have hsp : s.dones.Subperm s.adds := by
    rw [List.subperm_ext_iff]
    intro x _
    rw [← occ_eq_count, ← occ_eq_count]
    exact h.occ_dones_le x.1 x.2
  obtain ⟨l, hp, hs⟩ := hsp
  have h1 : (l.map Prod.snd).Nodup := h.adds_jobs_nodup.sublist (hs.map Prod.snd)
  exact (hp.map Prod.snd).nodup_iff.mp h1

theorem Inv.log_jobs_filter {s : State} (h : Inv env cfg s) :
    s.log.filterMap lineJob = s.dones.map Prod.snd := by
  have h1 : ∀ (log : List LogLine),
      log.filterMap lineJob = (log.filterMap lineKey).map Prod.snd := by
    intro log
    induction log with
    | nil => rfl
    | cons x xs ih => cases x <;> simp [lineJob, lineKey, ih]
  rw [h1, h.log_keys]
  simp

theorem Inv.no_abort {s : State} (h : Inv env cfg s) (hu : cfg.url ≠ "")
    (hn : 0 ≤ cfg.numRequests) (hm : cfg.numRequests ≤ env.maxCap)
    (hg : cfg.concurrency ≤ env.maxGo) :
    s.pc ≠ .fatal ∧ s.pc ≠ .panicked ∧ ∀ w, s.pc ≠ .exhausted w := by
  have := h.pc_ok
  refine ⟨?_, ?_, ?_⟩
  · intro e
    rw [e] at this
    exact hu this
  · intro e
    rw [e] at this
    have h2 : cfg.numRequests < 0 ∨ env.maxCap < cfg.numRequests := this.2
    omega
  · intro w e
    rw [e] at this
    have h2 : w ≤ cfg.concurrency := this.2.2.2.1
    have h3 : env.maxGo ≤ w - 1 := this.2.2.2.2.2
    omega

theorem Inv.adds_nil {s : State} (h : Inv env cfg s) (hs : sentCount cfg s.pc = 0) :
    s.adds = [] ∧ s.buf = [] := by
  have := h.chan
  rw [hs] at this
  simp [jobIds] at this
  exact this

theorem Inv.tasks_nil {s : State} (h : Inv env cfg s) (ha : s.adds = []) : s.tasks = [] := by
  cases hts : s.tasks with
  | nil => rfl
  | cons t ts =>
    have ht : t ∈ s.tasks := by rw [hts]; exact List.mem_cons_self _ _
    have h1 := (h.tasks_ok t ht).1
    rw [ha] at h1
    cases h1

/-- A run that has ended takes no further step. -/
theorem halted_stuck {s : State} (h : Inv env cfg s) (hh : halted s = true) (a : Action) :
    step env cfg s a = none := by
  have hpc : s.pc = .done ∨ s.pc = .fatal ∨ s.pc = .panicked ∨ ∃ w, s.pc = .exhausted w := by
    cases e : s.pc <;> simp [halted, e] at hh ⊢
  cases a with
  | main =>
    rcases hpc with e | e | e | ⟨w, e⟩ <;> simp [step, stepMain, e]
  | worker k =>
    simp only [step, stepWorker]
    cases hk : s.workers[k]? with
    | none => rfl
    | some w =>
      have hlt := lt_of_getElem? hk
      have hlen := h.launched
      rcases hpc with e | e | e | ⟨w0, e⟩
      · have hw := h.barrier (by simp [e, pastBarrier]) w (List.getElem?_mem hk)
        simp [hw]
      · rw [e] at hlen
        have hlen0 : s.workers.length = 0 := hlen
        omega
      · rw [e] at hlen
        have hlen0 : s.workers.length = 0 := hlen
        omega
      · have h0 := h.adds_nil (by rw [e]; rfl)
        have hc : s.closed = false := by
          have := h.closed_eq
          rw [e] at this
          exact this
        have hw := h.idle h0.1 hc w (List.getElem?_mem hk)
        simp [hw, h0.2, hc]
  | task i o =>
    simp only [step, stepTask]
    cases hi : s.tasks[i]? with
    | none => rfl
    | some t =>
      have ht := List.getElem?_mem hi
      rcases hpc with e | e | e | ⟨w0, e⟩
      · have hres := h.resolved_past_barrier (by simp [e, pastBarrier]) t ht
        cases hr : t.result with
        | none => exact absurd hr hres
        | some o' => simp only [hr]
      · have := h.tasks_nil (h.adds_nil (by simp [e, sentCount])).1
        rw [this] at ht
        cases ht
      · have := h.tasks_nil (h.adds_nil (by simp [e, sentCount])).1
        rw [this] at ht
        cases ht
      · have := h.tasks_nil (h.adds_nil (by simp [e, sentCount])).1
        rw [this] at ht
        cases ht

theorem init_fatal (env : Env) (cfg : Config) (hu : cfg.url = "") :
    run env cfg init [.main] = some { init with pc := .fatal, log := [.fatalURL] } := by
  simp [run, step, stepMain, init, hu]

theorem init_panicked (env : Env) (cfg : Config) (hu : cfg.url ≠ "")
    (hn : cfg.numRequests < 0 ∨ env.maxCap < cfg.numRequests) :
    run env cfg init [.main, .main] = some { init with pc := .panicked } := by
  simp only [run, step, stepMain, init]
  rw [if_neg hu]
  simp only []
  rw [if_pos hn]

/-- C4 (amended): some run of `main` ends abnormally before any worker has been started
(and so without the summary) if and only if the URL is empty, numRequests is negative, or
numRequests is above the channel capacity the runtime can allocate.  The run ends by
`log.Fatal` if and only if the URL is empty, and by the panic of `make` if and only if the
URL is not empty and numRequests is negative or above that capacity.  Every such end comes
before any worker is started, any job is enqueued or the summary is printed, and nothing
runs after it; the only other abnormal end, the runtime failing to start a worker, comes
after at least one worker has been started.  With an empty URL, whatever the other flags,
every reachable state has the driver at its first statement or at the fatal exit, with
zero workers, zero jobs and no summary. -/
theorem C4_abort_iff_bad_flags (env : Env) (cfg : Config) :
    ((∃ s, Reachable env cfg s ∧ halted s = true ∧ s.pc ≠ .done ∧ s.workers = []) ↔
      (cfg.url = "" ∨ cfg.numRequests < 0 ∨ env.maxCap < cfg.numRequests)) ∧
    ((∃ s, Reachable env cfg s ∧ s.pc = .fatal) ↔ cfg.url = "") ∧
    ((∃ s, Reachable env cfg s ∧ s.pc = .panicked) ↔
      (cfg.url ≠ "" ∧ (cfg.numRequests < 0 ∨ env.maxCap < cfg.numRequests))) ∧
    (∀ s, Reachable env cfg s → (s.pc = .fatal ∨ s.pc = .panicked) →
      s.workers = [] ∧ s.buf = [] ∧ s.adds = [] ∧ s.tasks = [] ∧ s.summary = none ∧
      ∀ a, step env cfg s a = none) ∧
    (∀ s w, Reachable env cfg s → s.pc = .exhausted w →
      s.workers ≠ [] ∧ s.summary = none) ∧
    (cfg.url = "" → ∀ s, Reachable env cfg s →
      (s.pc = .start ∨ s.pc = .fatal) ∧ s.workers = [] ∧ s.buf = [] ∧ s.adds = [] ∧
      s.summary = none) ∧
    (cfg.url = "" → ∃ s, Reachable env cfg s ∧ s.pc = .fatal ∧ s.log = [.fatalURL]) := by
  have hex : ∀ s w, Reachable env cfg s → s.pc = .exhausted w →
      s.workers ≠ [] ∧ s.summary = none := by
    intro s w hr e
    have h := inv_reachable hr
    have h1 := h.pc_ok
    have h2 := h.launched
    have h3 := h.summary_eq
    rw [e] at h1 h2
    have h4 : env.maxGo ≤ w - 1 := h1.2.2.2.2.2
    have h5 := env.maxGo_pos
    have h6 : s.workers.length = (w - 1).toNat := h2
    constructor
    · intro hnil
      rw [hnil] at h6
      simp at h6
      omega
    · simpa [e] using h3
  have hearly : ∀ s, Reachable env cfg s → (s.pc = .fatal ∨ s.pc = .panicked) →
      s.workers = [] ∧ s.buf = [] ∧ s.adds = [] ∧ s.tasks = [] ∧ s.summary = none ∧
      ∀ a, step env cfg s a = none := by
    intro s hr hpc
    have h := inv_reachable hr
    have hs : sentCount cfg s.pc = 0 := by
      rcases hpc with e | e <;> simp [e, sentCount]
    have hl : s.workers.length = 0 := by
      have := h.launched
      rcases hpc with e | e <;> simpa [e, launchedCount] using this
    have hsum : s.summary = none := by
      have := h.summary_eq
      rcases hpc with e | e <;> simpa [e] using this
    have hh : halted s = true := by
      rcases hpc with e | e <;> simp [halted, e]
    exact ⟨List.length_eq_zero.mp hl, (h.adds_nil hs).2, (h.adds_nil hs).1,
      h.tasks_nil (h.adds_nil hs).1, hsum, halted_stuck h hh⟩
  have hbad : (cfg.url = "" ∨ cfg.numRequests < 0 ∨ env.maxCap < cfg.numRequests) →
      ∃ s, Reachable env cfg s ∧ (s.pc = .fatal ∨ s.pc = .panicked) := by
    intro hb
    by_cases hu : cfg.url = ""
    · exact ⟨_, ⟨[.main], init_fatal env cfg hu⟩, Or.inl rfl⟩
    · have hn : cfg.numRequests < 0 ∨ env.maxCap < cfg.numRequests := by
        rcases hb with e | e
        · exact absurd e hu
        · exact e
      exact ⟨_, ⟨[.main, .main], init_panicked env cfg hu hn⟩, Or.inr rfl⟩
  refine ⟨⟨?_, ?_⟩, ⟨?_, ?_⟩, ⟨?_, ?_⟩, hearly, hex, ?_, ?_⟩
  · rintro ⟨s, hr, hh, hnd, hw⟩
    have h := (inv_reachable hr).pc_ok
    cases e : s.pc with
    | done => exact absurd e hnd
    | fatal =>
      rw [e] at h
      exact Or.inl h
    | panicked =>
      rw [e] at h
      exact Or.inr h.2
    | exhausted w => exact absurd hw (hex s w hr e).1
    | start => simp [halted, e] at hh
    | makeChan => simp [halted, e] at hh
    | launch w => simp [halted, e] at hh
    | send i => simp [halted, e] at hh
    | close => simp [halted, e] at hh
    | wait => simp [halted, e] at hh
    | report => simp [halted, e] at hh
  · intro hb
    obtain ⟨s, hr, hpc⟩ := hbad hb
    refine ⟨s, hr, ?_, ?_, (hearly s hr hpc).1⟩
    · rcases hpc with e | e <;> simp [halted, e]
    · rcases hpc with e | e <;> simp [e]
  · rintro ⟨s, hr, e⟩
    have h := (inv_reachable hr).pc_ok
    rw [e] at h
    exact h
  · intro hu
    exact ⟨_, ⟨[.main], init_fatal env cfg hu⟩, rfl⟩
  · rintro ⟨s, hr, e⟩
    have h := (inv_reachable hr).pc_ok
    rw [e] at h
    exact h
  · rintro ⟨hu, hn⟩
    exact ⟨_, ⟨[.main, .main], init_panicked env cfg hu hn⟩, rfl⟩
  · intro hu s hr
    have h := inv_reachable hr
    have hpc : s.pc = .start ∨ s.pc = .fatal := by
      have := h.pc_ok
      cases e : s.pc <;> simp [e, pcOk, hu] at this ⊢
    have hs : sentCount cfg s.pc = 0 := by
      rcases hpc with e | e <;> simp [e, sentCount]
    have hl : s.workers.length = 0 := by
      have := h.launched
      rcases hpc with e | e <;> simpa [e, launchedCount] using this
    have hsum : s.summary = none := by
      have := h.summary_eq
      rcases hpc with e | e <;> simpa [e] using this
    exact ⟨hpc, List.length_eq_zero.mp hl, (h.adds_nil hs).2, (h.adds_nil hs).1, hsum⟩
  · intro hu
    exact ⟨_, ⟨[.main], init_fatal env cfg hu⟩, rfl, rfl⟩

/-- C4 (counterexample): with the non-empty URL "http://example.test" and `-n=-1` the run
stops in the panic of `make(chan int, -1)`: no worker has been started, no job enqueued,
no summary printed, and the run has halted. -/
theorem C4_counterexample :
    negativeCfg.url ≠ "" ∧
    run sampleEnv negativeCfg init [.main, .main] = some negativeFinal ∧
    negativeFinal.pc = .panicked ∧ negativeFinal.workers = [] ∧ negativeFinal.buf = [] ∧
    negativeFinal.summary = none ∧ halted negativeFinal = true := by
  decide

theorem Inv.summary_of_done {s : State} (h : Inv env cfg s) (hd : s.pc = .done) :
    s.summary = some { totalRequests := cfg.numRequests, concurrencyLevel := cfg.concurrency } := by
  have := h.summary_eq
  simpa [hd] using this

theorem Inv.done_of_halted {s : State} (h : Inv env cfg s) (hu : cfg.url ≠ "")
    (hn : 0 ≤ cfg.numRequests) (hm : cfg.numRequests ≤ env.maxCap)
    (hg : cfg.concurrency ≤ env.maxGo) (hh : halted s = true) : s.pc = .done := by
  have h1 := h.no_abort hu hn hm hg
  cases e : s.pc with
  | done => rfl
  | fatal => exact absurd e h1.1
  | panicked => exact absurd e h1.2.1
  | exhausted w => exact absurd e (h1.2.2 w)
  | start => simp [halted, e] at hh
  | makeChan => simp [halted, e] at hh
  | launch w => simp [halted, e] at hh
  | send i => simp [halted, e] at hh
  | close => simp [halted, e] at hh
  | wait => simp [halted, e] at hh
  | report => simp [halted, e] at hh

theorem completes {s : State} (h : Inv env cfg s) (hu : cfg.url ≠ "")
    (hn : 0 ≤ cfg.numRequests) (hm : cfg.numRequests ≤ env.maxCap)
    (hg : cfg.concurrency ≤ env.maxGo) :
    ∃ rest s', run env cfg s rest = some s' ∧ s'.pc = .done ∧
      s'.summary = some { totalRequests := cfg.numRequests,
                          concurrencyLevel := cfg.concurrency } := by
  obtain ⟨rest, s', hrun, hh⟩ := completes_aux (measure cfg s) s h (Nat.le_refl _)
  have h' := inv_run h hrun
  have hd := h'.done_of_halted hu hn hm hg hh
  exact ⟨rest, s', hrun, hd, h'.summary_of_done hd⟩

theorem Inv.done_flags {s : State} (h : Inv env cfg s) (hd : s.pc = .done) :
    cfg.url ≠ "" ∧ 0 ≤ cfg.numRequests ∧ cfg.numRequests ≤ env.maxCap ∧
      cfg.concurrency ≤ env.maxGo := by
  have h1 := h.url_ne (by rw [hd]; rfl)
  have h2 := h.launched
  have h3 := h.room
  rw [hd] at h2
  have h4 : s.workers.length = cfg.concurrency.toNat := h2
  exact ⟨h1.1, h1.2.1, h1.2.2, by omega⟩

theorem Inv.no_summary {s : State} (h : Inv env cfg s)
    (hbad : ¬ (cfg.url ≠ "" ∧ 0 ≤ cfg.numRequests ∧ cfg.numRequests ≤ env.maxCap ∧
      cfg.concurrency ≤ env.maxGo)) : s.summary = none ∧ s.pc ≠ .done := by
  have hpc : s.pc ≠ .done := fun e => hbad (h.done_flags e)
  have := h.summary_eq
  simp [hpc] at this
  exact ⟨this, hpc⟩

/-- C5 (amended): for every configuration with a non-empty URL, a numRequests between 0
and the channel capacity the runtime can allocate, and a concurrency no larger than the
number of workers the runtime can start, under every schedule and every outcome of every
request: a run is never stuck before the driver has printed the summary, it takes at most
3*concurrency + 4*numRequests + 7 steps, it can always be continued to the end, it ends
only after the summary has been printed, and the summary carries exactly the configured
numRequests and concurrency. -/
theorem C5_summary_always_printed (env : Env) (cfg : Config)
    (sched : List Action) (s : State) (hu : cfg.url ≠ "") (hn : 0 ≤ cfg.numRequests)
    (hm : cfg.numRequests ≤ env.maxCap) (hg : cfg.concurrency ≤ env.maxGo)
    (hrun : run env cfg init sched = some s) :
    sched.length ≤ 3 * cfg.concurrency.toNat + 4 * cfg.numRequests.toNat + 7 ∧
    (halted s = false → ∃ a s', step env cfg s a = some s') ∧
    (halted s = true → s.pc = .done ∧
      s.summary = some { totalRequests := cfg.numRequests,
                         concurrencyLevel := cfg.concurrency }) ∧
    (∀ sm, s.summary = some sm →
      sm.totalRequests = cfg.numRequests ∧ sm.concurrencyLevel = cfg.concurrency) ∧
    (∃ rest s', run env cfg s rest = some s' ∧ s'.pc = .done ∧
      s'.summary = some { totalRequests := cfg.numRequests,
                          concurrencyLevel := cfg.concurrency }) := by
  have h : Inv env cfg s := inv_run inv_init hrun
  refine ⟨?_, progress h, ?_, ?_, completes h hu hn hm hg⟩
  · have hm : sched.length + measure cfg s ≤ measure cfg init := measure_run inv_init hrun
    have h0 : measure cfg init =
        3 * cfg.concurrency.toNat + 4 * cfg.numRequests.toNat + 7 := by
      simp [measure, init, mainPot]
    omega
  · intro hh
    have hd := h.done_of_halted hu hn hm hg hh
    exact ⟨hd, h.summary_of_done hd⟩
  · intro sm hsm
    have := h.summary_eq
    rw [hsm] at this
    by_cases hd : s.pc = .done
    · simp [hd] at this
      subst this
      exact ⟨rfl, rfl⟩
    · simp [hd] at this

/-- C5 (witness): the statement at the complete sample run, in which one request fails and
the other gets a 404. -/
theorem C5_summary_always_printed_witness :
    (demoCfg.url ≠ "" ∧ 0 ≤ demoCfg.numRequests ∧ demoCfg.numRequests ≤ sampleEnv.maxCap ∧
      demoCfg.concurrency ≤ sampleEnv.maxGo ∧
      run sampleEnv demoCfg init demoSched = some demoFinal ∧
      demoFinal.log = [.completed 1 2 404, .requestErr 1 1]) ∧
    (demoSched.length ≤ 3 * demoCfg.concurrency.toNat + 4 * demoCfg.numRequests.toNat + 7 ∧
    (halted demoFinal = false → ∃ a s', step sampleEnv demoCfg demoFinal a = some s') ∧
    (halted demoFinal = true → demoFinal.pc = .done ∧
      demoFinal.summary = some { totalRequests := demoCfg.numRequests,
                                 concurrencyLevel := demoCfg.concurrency }) ∧
    (∀ sm, demoFinal.summary = some sm →
      sm.totalRequests = demoCfg.numRequests ∧ sm.concurrencyLevel = demoCfg.concurrency) ∧
    (∃ rest s', run sampleEnv demoCfg demoFinal rest = some s' ∧ s'.pc = .done ∧
      s'.summary = some { totalRequests := demoCfg.numRequests,
                          concurrencyLevel := demoCfg.concurrency })) :=
  ⟨⟨by decide, by decide, by decide, by decide, by decide, by decide⟩,
   C5_summary_always_printed sampleEnv demoCfg demoSched demoFinal (by decide) (by decide)
     (by decide) (by decide) (by decide)⟩

/-- C5 (counterexample): three configurations with the non-empty URL
"http://example.test" whose runs never print the summary.  With `-n=-5 -c=2` and with
`-n=100000000000000 -c=2` the run ends in the panic of `make(chan int, n)` after two
steps of the driver; with `-n=1 -c=2000000`, on a machine with room for a million
workers, the driver never gets past the launch loop. -/
theorem C5_counterexample :
    ("http://example.test" ≠ "" ∧
      run sampleEnv
        { url := "http://example.test", numRequests := -5, concurrency := 2, method := "GET",
          timeout := 10 } init [.main, .main] =
        some { init with pc := .panicked } ∧
      run sampleEnv
        { url := "http://example.test", numRequests := 100000000000000, concurrency := 2,
          method := "GET", timeout := 10 } init [.main, .main] =
        some { init with pc := .panicked }) ∧
    (∀ sched s,
      run sampleEnv
        { url := "http://example.test", numRequests := -5, concurrency := 2, method := "GET",
          timeout := 10 } init sched = some s →
      s.summary = none ∧ s.pc ≠ .done) ∧
    (∀ sched s,
      run sampleEnv
        { url := "http://example.test", numRequests := 100000000000000, concurrency := 2,
          method := "GET", timeout := 10 } init sched = some s →
      s.summary = none ∧ s.pc ≠ .done) ∧
    (∀ sched s,
      run sampleEnv
        { url := "http://example.test", numRequests := 1, concurrency := 2000000,
          method := "GET", timeout := 10 } init sched = some s →
      s.summary = none ∧ s.pc ≠ .done) := by
  refine ⟨⟨by decide, by decide, by decide⟩, ?_, ?_, ?_⟩
  · intro sched s hrun
    have h : Inv sampleEnv _ s := inv_run inv_init hrun
    exact h.no_summary (by decide)
  · intro sched s hrun
    have h : Inv sampleEnv _ s := inv_run inv_init hrun
    exact h.no_summary (by decide)
  · intro sched s hrun
    have h : Inv sampleEnv _ s := inv_run inv_init hrun
    exact h.no_summary (by decide)

/-- C10 (amended): for every configuration with a non-empty URL, a numRequests between 0
and the channel capacity the runtime can allocate, and
concurrency <= 0, in every reachable state no worker exists, no job has been received and
no request goroutine spawned, so only the driver can move; the driver is never blocked
(the channel has capacity numRequests, every send finds room, and `wg` is zero at the
barrier); when it is done the buffer still holds all of 1..numRequests and the summary
reports Total Requests = numRequests. Such a complete run exists. -/
theorem C10_no_workers_still_reports (env : Env) (cfg : Config)
    (hu : cfg.url ≠ "") (hn : 0 ≤ cfg.numRequests) (hm : cfg.numRequests ≤ env.maxCap)
    (hc : cfg.concurrency ≤ 0) :
    (∀ s, Reachable env cfg s →
      s.workers = [] ∧ s.adds = [] ∧ s.tasks = [] ∧ s.wg = 0 ∧
      (∀ k, step env cfg s (.worker k) = none) ∧
      (∀ i o, step env cfg s (.task i o) = none) ∧
      (afterMake s.pc = true → s.cap = cfg.numRequests) ∧
      (halted s = false → ∃ s', step env cfg s .main = some s') ∧
      (s.pc = .done →
        s.buf = jobIds cfg.numRequests.toNat ∧
        s.summary = some { totalRequests := cfg.numRequests,
                           concurrencyLevel := cfg.concurrency })) ∧
    (∃ sched s, run env cfg init sched = some s ∧ s.pc = .done ∧ s.tasks = [] ∧
      s.buf = jobIds cfg.numRequests.toNat ∧
      s.summary = some { totalRequests := cfg.numRequests,
                         concurrencyLevel := cfg.concurrency }) := by
  have key : ∀ s, Reachable env cfg s →
      s.workers = [] ∧ s.adds = [] ∧ s.tasks = [] ∧
      (s.pc = .done → s.buf = jobIds cfg.numRequests.toNat) := by
    intro s hr
    have h := inv_reachable hr
    have hl : s.workers.length = 0 := by
      have h1 := h.launched
      have h2 := h.pc_ok
      have h3 : launchedCount cfg s.pc = 0 := by
        cases e : s.pc with
        | launch w =>
          rw [e] at h2
          have h4 : w ≤ max cfg.concurrency 0 + 1 := h2.2.2.2.1
          show (w - 1).toNat = 0
          omega
        | exhausted w =>
          rw [e] at h2
          have h4 : 1 ≤ w := h2.2.2.1
          have h5 : w ≤ cfg.concurrency := h2.2.2.2.1
          omega
        | start => rfl
        | makeChan => rfl
        | fatal => rfl
        | panicked => rfl
        | send i => show cfg.concurrency.toNat = 0; omega
        | close => show cfg.concurrency.toNat = 0; omega
        | wait => show cfg.concurrency.toNat = 0; omega
        | report => show cfg.concurrency.toNat = 0; omega
        | done => show cfg.concurrency.toNat = 0; omega
      omega
    have ha : s.adds = [] := by
      cases e : s.adds with
      | nil => rfl
      | cons p ps =>
        have := h.adds_lt p (by rw [e]; exact List.mem_cons_self _ _)
        omega
    refine ⟨List.length_eq_zero.mp hl, ha, h.tasks_nil ha, ?_⟩
    intro hd
    have := h.chan
    rw [ha, hd] at this
    simpa [sentCount] using this
  constructor
  · intro s hr
    have h := inv_reachable hr
    obtain ⟨hw, ha, ht, hb⟩ := key s hr
    have hkw : ∀ k, step env cfg s (.worker k) = none := by
      intro k
      simp [step, stepWorker, hw]
    have hkt : ∀ i o, step env cfg s (.task i o) = none := by
      intro i o
      simp [step, stepTask, ht]
    refine ⟨hw, ha, ht, ?_, hkw, hkt, h.cap_eq, ?_, ?_⟩
    · have := h.wg_eq
      rw [hw] at this
      simpa using this
    · intro hh
      obtain ⟨a, s', hs'⟩ := progress h hh
      cases a with
      | main => exact ⟨s', hs'⟩
      | worker k => rw [hkw k] at hs'; cases hs'
      | task i o => rw [hkt i o] at hs'; cases hs'
    · intro hd
      exact ⟨hb hd, h.summary_of_done hd⟩
  · have hg : cfg.concurrency ≤ env.maxGo := by
      have := env.maxGo_pos
      omega
    obtain ⟨sched, s, hrun, hd, hsum⟩ := completes (inv_init : Inv env cfg init) hu hn hm hg
    obtain ⟨_, _, ht, hb⟩ := key s ⟨sched, hrun⟩
    exact ⟨sched, s, hrun, hd, ht, hb hd, hsum⟩

/-- C10 (witness): the statement for `-url=http://example.test -n=2 -c=0`. -/
theorem C10_no_workers_still_reports_witness :
    (idleCfg.url ≠ "" ∧ 0 ≤ idleCfg.numRequests ∧ idleCfg.numRequests ≤ sampleEnv.maxCap ∧
      idleCfg.concurrency ≤ 0 ∧
      run sampleEnv idleCfg init (List.replicate 9 .main) = some idleFinal ∧
      idleFinal.pc = .done ∧ idleFinal.buf = [1, 2] ∧
      idleFinal.summary = some { totalRequests := 2, concurrencyLevel := 0 }) ∧
    ((∀ s, Reachable sampleEnv idleCfg s →
      s.workers = [] ∧ s.adds = [] ∧ s.tasks = [] ∧ s.wg = 0 ∧
      (∀ k, step sampleEnv idleCfg s (.worker k) = none) ∧
      (∀ i o, step sampleEnv idleCfg s (.task i o) = none) ∧
      (afterMake s.pc = true → s.cap = idleCfg.numRequests) ∧
      (halted s = false → ∃ s', step sampleEnv idleCfg s .main = some s') ∧
      (s.pc = .done →
        s.buf = jobIds idleCfg.numRequests.toNat ∧
        s.summary = some { totalRequests := idleCfg.numRequests,
                           concurrencyLevel := idleCfg.concurrency })) ∧
    (∃ sched s, run sampleEnv idleCfg init sched = some s ∧ s.pc = .done ∧ s.tasks = [] ∧
      s.buf = jobIds idleCfg.numRequests.toNat ∧
      s.summary = some { totalRequests := idleCfg.numRequests,
                         concurrencyLevel := idleCfg.concurrency })) :=
  ⟨⟨by decide, by decide, by decide, by decide, by decide, by decide, by decide, by decide⟩,
   C10_no_workers_still_reports sampleEnv idleCfg (by decide) (by decide) (by decide)
     (by decide)⟩

/-- C10 (counterexample): `-url=http://example.test -n=9223372036854775807 -c=0` has a
non-empty URL, numRequests >= 0 and concurrency <= 0, yet the run ends in the panic of
`make` (size out of range) after two steps of the driver: nothing is enqueued, and no
state of any of its runs has a summary. -/
theorem C10_counterexample :
    (hugeCfg.url ≠ "" ∧ 0 ≤ hugeCfg.numRequests ∧ hugeCfg.concurrency ≤ 0) ∧
    (run sampleEnv hugeCfg init [.main, .main] = some hugeFinal ∧
      hugeFinal.pc = .panicked ∧ hugeFinal.buf = [] ∧ hugeFinal.summary = none ∧
      halted hugeFinal = true) ∧
    (∀ sched s, run sampleEnv hugeCfg init sched = some s →
      s.summary = none ∧ s.pc ≠ .done) := by
  refine ⟨by decide, by decide, ?_⟩
  intro sched s hrun
  have h : Inv sampleEnv hugeCfg s := inv_run inv_init hrun
  exact h.no_summary (by decide)

/-- C7 (amended): for numRequests >= 1 and concurrency >= 1 the workers are launched
before the queue is filled. While the driver is starting workers (in particular right
after the first one has been started) the queue is empty and open and no job has been
received; a job is in the queue or has been received only when all `concurrency` workers
have been started; while sending, the identifiers sent so far are 1, 2, ... in order and
the queue is open; and the queue is closed only after all workers have been launched and
all of 1..numRequests have been sent. -/
theorem C7_workers_before_jobs (env : Env) (cfg : Config) (s : State)
    (_hn : 1 ≤ cfg.numRequests) (_hc : 1 ≤ cfg.concurrency) (hr : Reachable env cfg s) :
    (∀ w, s.pc = .launch w →
      s.workers.length = (w - 1).toNat ∧ s.buf = [] ∧ s.adds = [] ∧ s.closed = false) ∧
    ((s.buf ≠ [] ∨ s.adds ≠ []) → s.workers.length = cfg.concurrency.toNat) ∧
    (∀ i, s.pc = .send i →
      s.workers.length = cfg.concurrency.toNat ∧
      s.adds.map Prod.snd ++ s.buf = jobIds (i - 1).toNat ∧ s.closed = false) ∧
    (s.closed = true →
      s.workers.length = cfg.concurrency.toNat ∧
      s.adds.map Prod.snd ++ s.buf = jobIds cfg.numRequests.toNat) := by
  have h := inv_reachable hr
  have hl := h.launched
  have hch := h.chan
  have hcl := h.closed_eq
  refine ⟨?_, ?_, ?_, ?_⟩
  · intro w e
    rw [e] at hl hcl
    have h0 := h.adds_nil (by rw [e]; rfl)
    exact ⟨hl, h0.2, h0.1, hcl⟩
  · intro hne
    cases e : s.pc with
    | start => exact absurd (h.adds_nil (by rw [e]; rfl)) (by tauto)
    | makeChan => exact absurd (h.adds_nil (by rw [e]; rfl)) (by tauto)
    | fatal => exact absurd (h.adds_nil (by rw [e]; rfl)) (by tauto)
    | panicked => exact absurd (h.adds_nil (by rw [e]; rfl)) (by tauto)
    | launch w => exact absurd (h.adds_nil (by rw [e]; rfl)) (by tauto)
    | exhausted w => exact absurd (h.adds_nil (by rw [e]; rfl)) (by tauto)
    | send i => rw [e] at hl; exact hl
    | close => rw [e] at hl; exact hl
    | wait => rw [e] at hl; exact hl
    | report => rw [e] at hl; exact hl
    | done => rw [e] at hl; exact hl
  · intro i e
    rw [e] at hl hch hcl
    exact ⟨hl, hch, hcl⟩
  · intro hclosed
    rw [hclosed] at hcl
    cases e : s.pc with
    | wait => rw [e] at hl hch; exact ⟨hl, hch⟩
    | report => rw [e] at hl hch; exact ⟨hl, hch⟩
    | done => rw [e] at hl hch; exact ⟨hl, hch⟩
    | start => rw [e] at hcl; cases hcl
    | makeChan => rw [e] at hcl; cases hcl
    | fatal => rw [e] at hcl; cases hcl
    | panicked => rw [e] at hcl; cases hcl
    | launch w => rw [e] at hcl; cases hcl
    | exhausted w => rw [e] at hcl; cases hcl
    | send i => rw [e] at hcl; cases hcl
    | close => rw [e] at hcl; cases hcl

/-- C7 (witness): the statement at the sample run right after its only worker has been
started. -/
theorem C7_workers_before_jobs_witness :
    (1 ≤ demoCfg.numRequests ∧ 1 ≤ demoCfg.concurrency ∧ demoLaunched.pc = .launch 2) ∧
    ((∀ w, demoLaunched.pc = .launch w →
      demoLaunched.workers.length = (w - 1).toNat ∧ demoLaunched.buf = [] ∧
      demoLaunched.adds = [] ∧ demoLaunched.closed = false) ∧
    ((demoLaunched.buf ≠ [] ∨ demoLaunched.adds ≠ []) →
      demoLaunched.workers.length = demoCfg.concurrency.toNat) ∧
    (∀ i, demoLaunched.pc = .send i →
      demoLaunched.workers.length = demoCfg.concurrency.toNat ∧
      demoLaunched.adds.map Prod.snd ++ demoLaunched.buf = jobIds (i - 1).toNat ∧
      demoLaunched.closed = false) ∧
    (demoLaunched.closed = true →
      demoLaunched.workers.length = demoCfg.concurrency.toNat ∧
      demoLaunched.adds.map Prod.snd ++ demoLaunched.buf = jobIds demoCfg.numRequests.toNat)) :=
  ⟨⟨by decide, by decide, by decide⟩,
   C7_workers_before_jobs sampleEnv demoCfg demoLaunched (by decide) (by decide)
     ⟨demoSched.take 3, by decide⟩⟩

/-- C7 (counterexample): with numRequests = 2 and concurrency = 1, after three steps of the
driver the first worker has been started while the queue is still empty: it does not hold
the identifiers 1, 2. -/
theorem C7_counterexample :
    (1 ≤ demoCfg.numRequests ∧ 1 ≤ demoCfg.concurrency) ∧
    run sampleEnv demoCfg init [.main, .main, .main] = some demoLaunched ∧
    demoLaunched.workers = [{ id := 1, pc := .recv, requestWg := 0 }] ∧
    demoLaunched.buf = [] ∧ demoLaunched.buf ≠ jobIds demoCfg.numRequests.toNat := by
  decide

/-- C8: the worker count does not cap the requests in flight. With concurrency = 1 and
numRequests = 2 a reachable state has one worker and two request goroutines whose
`client.Do` has not returned; in general a worker at the head of its loop receives the next
job whenever the buffer is non-empty, whatever the state of the goroutines it spawned. -/
theorem C8_in_flight_exceeds_workers :
    (∃ sched s, run sampleEnv demoCfg init sched = some s ∧
      demoCfg.concurrency = 1 ∧ demoCfg.numRequests = 2 ∧
      s.workers.length = 1 ∧ inFlight s = 2 ∧ s.workers.length < inFlight s) ∧
    (∀ (env : Env) (cfg : Config) (s : State) (k : Nat) (w : Worker)
        (j : Int) (rest : List Int),
      s.workers[k]? = some w → w.pc = .recv → s.buf = j :: rest →
      ∃ s', step env cfg s (.worker k) = some s' ∧ s'.tasks = s.tasks ∧
        s'.workers[k]? = some { w with pc := .build j, requestWg := w.requestWg + 1 }) := by
  constructor
  · exact ⟨demoSched.take 10, demoBusy, by decide, by decide, by decide, by decide, by decide,
      by decide⟩
  · intro env cfg s k w j rest hk hw hb
    have hlt := lt_of_getElem? hk
    have hstep : step env cfg s (.worker k) =
        some { s with buf := rest,
                      workers := s.workers.set k
                        { w with pc := .build j, requestWg := w.requestWg + 1 },
                      adds := s.adds ++ [(k, j)] } := by
      simp [step, stepWorker, hk, hw, hb]
    exact ⟨_, hstep, rfl, by simp [hlt]⟩

theorem buildRequest_none {env : Env} {method url : String}
    (h : accepts env method url = false) : buildRequest env method url = none := by
  have := buildRequest_isSome env method url
  rw [h] at this
  cases e : buildRequest env method url with
  | none => rfl
  | some r => rw [e] at this; cases this

theorem accepts_iff (env : Env) (method url : String) :
    accepts env method url = true ↔
      validMethod (normMethod method) = true ∧ ∃ u, urlParse env url = some u := by
  unfold accepts NewRequest
  by_cases hv : validMethod (normMethod method) = true
  · cases hu : urlParse env url with
    | none => simp [hv]
    | some u => simp [hv]
  · simp [hv]

/-- C9 (amended): in every reachable state every request goroutine holds the request
`http.NewRequest` builds from the caller's method and URL: its method is the caller's
method, or GET when the caller's method is empty; its URL is what the parser returns for
the caller's URL string; it has no body and exactly the headers User-Agent =
"LoadTester/1.0" and Accept = "*/*".  The descriptor is the same for every job and every
worker.  The construction succeeds exactly when the method (GET for an empty one) is a
non-empty string of token characters and the URL parses; a method with a character that
is not a token character and a URL with a control character fail.  A worker holding a job
spawns the request goroutine with this descriptor when the construction succeeds; when it
fails the worker logs the construction error and returns to the head of its loop, and no
request goroutine is ever spawned. -/
theorem C9_request_descriptor (env : Env) (cfg : Config) (s : State)
    (hr : Reachable env cfg s) :
    (∀ t ∈ s.tasks, validMethod (normMethod cfg.method) = true ∧
      ∃ u, urlParse env cfg.url = some u ∧
        t.req = { Method := if cfg.method = "" then "GET" else cfg.method, URL := u,
                  Body := none,
                  Header := [("User-Agent", "LoadTester/1.0"), ("Accept", "*/*")] }) ∧
    (∀ t ∈ s.tasks, ∀ t' ∈ s.tasks, t.req = t'.req) ∧
    (accepts env cfg.method cfg.url = true ↔
      validMethod (normMethod cfg.method) = true ∧ ∃ u, urlParse env cfg.url = some u) ∧
    (cfg.method ≠ "" → (∃ c ∈ cfg.method.data, isTokenChar c = false) →
      accepts env cfg.method cfg.url = false) ∧
    ((∃ c ∈ cfg.url.data, isCTL c = true) → accepts env cfg.method cfg.url = false) ∧
    (accepts env cfg.method cfg.url = false → s.tasks = []) ∧
    (∀ (k : Nat) (w : Worker) (j : Int), s.workers[k]? = some w → w.pc = .build j →
      (accepts env cfg.method cfg.url = false →
        step env cfg s (.worker k) =
          some { s with log := s.log ++ [.createErr w.id j],
                        workers := s.workers.set k
                          { w with pc := .recv, requestWg := w.requestWg - 1 },
                        dones := s.dones ++ [(k, j)] }) ∧
      (∀ u, validMethod (normMethod cfg.method) = true → urlParse env cfg.url = some u →
        step env cfg s (.worker k) =
          some { s with
                   tasks := s.tasks ++
                     [{ worker := k, job := j,
                        req := { Method := if cfg.method = "" then "GET" else cfg.method,
                                 URL := u, Body := none,
                                 Header := [("User-Agent", "LoadTester/1.0"),
                                            ("Accept", "*/*")] },
                        result := none }],
                   workers := s.workers.set k { w with pc := .recv } })) := by
  have h := inv_reachable hr
  have hreq : ∀ t ∈ s.tasks, validMethod (normMethod cfg.method) = true ∧
      ∃ u, urlParse env cfg.url = some u ∧
        t.req = { Method := if cfg.method = "" then "GET" else cfg.method, URL := u,
                  Body := none,
                  Header := [("User-Agent", "LoadTester/1.0"), ("Accept", "*/*")] } := by
    intro t ht
    exact (buildRequest_eq env cfg.method cfg.url t.req (h.tasks_ok t ht).2).2
  refine ⟨hreq, ?_, accepts_iff env cfg.method cfg.url, ?_, ?_, tasks_nil_of_rejected h, ?_⟩
  · intro t ht t' ht'
    obtain ⟨_, u, hu, e⟩ := hreq t ht
    obtain ⟨_, u', hu', e'⟩ := hreq t' ht'
    rw [hu] at hu'
    cases hu'
    rw [e, e']
  · rintro hne ⟨c, hc, hcf⟩
    cases ha : accepts env cfg.method cfg.url with
    | false => rfl
    | true =>
      have hv := ((accepts_iff env cfg.method cfg.url).mp ha).1
      simp only [normMethod, if_neg hne, validMethod, Bool.and_eq_true, List.all_eq_true] at hv
      have := hv.2 c hc
      rw [hcf] at this
      cases this
  · rintro ⟨c, hc, hcf⟩
    cases ha : accepts env cfg.method cfg.url with
    | false => rfl
    | true =>
      obtain ⟨u, hu⟩ := ((accepts_iff env cfg.method cfg.url).mp ha).2
      have hany : cfg.url.data.any isCTL = true := List.any_eq_true.mpr ⟨c, hc, hcf⟩
      simp [urlParse, hany] at hu
  · intro k w j hk hw
    constructor
    · intro ha
      simp [step, stepWorker, hk, hw, buildRequest_none ha]
    · intro u hv hu
      have hb : buildRequest env cfg.method cfg.url =
          some { Method := if cfg.method = "" then "GET" else cfg.method, URL := u,
                 Body := none,
                 Header := [("User-Agent", "LoadTester/1.0"), ("Accept", "*/*")] } := by
        unfold buildRequest NewRequest
        simp only [hv, hu, if_true]
        simp [headerSet, normMethod]
      simp [step, stepWorker, hk, hw, hb]

/-- C9 (witness): the statement applied to three sample states: the run with the empty
method after its request goroutine has been spawned (the request has the method GET); the
two-request run with the worker holding job 1 (its step spawns the request goroutine with
the descriptor); and the run with the method "BAD METHOD" with the worker holding job 1
(the space is not a token character, the construction fails and the step logs the
error). -/
theorem C9_request_descriptor_witness :
    (emptyMethodCfg.method = "" ∧ emptyMethodBusy.tasks.length = 1 ∧
      demoGot.workers[0]? = some { id := 1, pc := .build 1, requestWg := 1 } ∧
      rejectedGot.workers[0]? = some { id := 1, pc := .build 1, requestWg := 1 } ∧
      rejectedCfg.method ≠ "" ∧ (∃ c ∈ rejectedCfg.method.data, isTokenChar c = false)) ∧
    (∀ t ∈ emptyMethodBusy.tasks, validMethod (normMethod emptyMethodCfg.method) = true ∧
      ∃ u, urlParse sampleEnv emptyMethodCfg.url = some u ∧
        t.req = { Method := if emptyMethodCfg.method = "" then "GET"
                            else emptyMethodCfg.method,
                  URL := u, Body := none,
                  Header := [("User-Agent", "LoadTester/1.0"), ("Accept", "*/*")] }) ∧
    (step sampleEnv demoCfg demoGot (.worker 0) =
      some { demoGot with
               tasks := demoGot.tasks ++
                 [{ worker := 0, job := 1,
                    req := { Method := if demoCfg.method = "" then "GET" else demoCfg.method,
                             URL := "http://example.test", Body := none,
                             Header := [("User-Agent", "LoadTester/1.0"),
                                        ("Accept", "*/*")] },
                    result := none }],
               workers := demoGot.workers.set 0
                 { id := 1, pc := .recv, requestWg := 1 } }) ∧
    (accepts sampleEnv rejectedCfg.method rejectedCfg.url = false ∧
      step sampleEnv rejectedCfg rejectedGot (.worker 0) =
        some { rejectedGot with
                 log := rejectedGot.log ++ [.createErr 1 1],
                 workers := rejectedGot.workers.set 0
                   { id := 1, pc := .recv, requestWg := 1 - 1 },
                 dones := rejectedGot.dones ++ [(0, 1)] }) :=
  ⟨⟨by decide, by decide, by decide, by decide, by decide, by decide⟩,
   (C9_request_descriptor sampleEnv emptyMethodCfg emptyMethodBusy
      ⟨[.main, .main, .main, .main, .main, .worker 0, .worker 0], by decide⟩).1,
   ((C9_request_descriptor sampleEnv demoCfg demoGot
      ⟨demoSched.take 7, by decide⟩).2.2.2.2.2.2 0
      { id := 1, pc := .build 1, requestWg := 1 } 1 (by decide) rfl).2
      "http://example.test" (by decide) (by decide),
   ⟨(C9_request_descriptor sampleEnv rejectedCfg rejectedGot
      ⟨rejectedSched.take 8, by decide⟩).2.2.2.1 (by decide) (by decide),
    ((C9_request_descriptor sampleEnv rejectedCfg rejectedGot
      ⟨rejectedSched.take 8, by decide⟩).2.2.2.2.2.2 0
      { id := 1, pc := .build 1, requestWg := 1 } 1 (by decide) rfl).1 (by decide)⟩⟩

/-- C9 (counterexample): with `-method=` (the empty string) the run of one request through
one worker spawns a request goroutine whose request has the method "GET", which is not the
caller-provided method. -/
theorem C9_counterexample :
    emptyMethodCfg.method = "" ∧
    run sampleEnv emptyMethodCfg init
      [.main, .main, .main, .main, .main, .worker 0, .worker 0] = some emptyMethodBusy ∧
    emptyMethodBusy.tasks.map (fun t => t.req.Method) = ["GET"] ∧
    (∀ t ∈ emptyMethodBusy.tasks, t.req.Method ≠ emptyMethodCfg.method) := by
  decide

theorem accepts_false_of_none {env : Env} {method url : String}
    (h : buildRequest env method url = none) : accepts env method url = false := by
  have := buildRequest_isSome env method url
  rw [h] at this
  exact this.symm

/-- C6: with concurrency >= 1, in every reachable state.
Transitions: a worker holding a job whose request cannot be built logs one
construction-error line with its id; a worker whose request is built logs nothing; the
end of a request goroutine logs one line, a request-error line when `client.Do` returned
an error and a completion line with the status code when it returned a response.
Accounting: the diagnostic lines that belong to
jobs are, in order, the jobs whose `requestWg.Done()` has run, one line per job and never
two for the same job, and every resolved job has its line; a construction-error line is logged only when `http.NewRequest`
rejects the (method, URL) pair, and then no other kind of job line is logged; a
request-error line for a worker and job is in the log exactly when that worker's request
goroutine for the job got an error from `client.Do`; a completion line with status `st` is
in the log exactly when that goroutine got a response with status `st`, whatever `st` is.
When the run is complete the log has exactly numRequests lines, one for each of
1..numRequests, all of them construction errors when the pair is rejected and all of them
completion lines when the pair is accepted and every request got a response. -/
theorem C6_one_log_line_per_job (env : Env) (cfg : Config) (s : State)
    (hc : 1 ≤ cfg.concurrency) (hr : Reachable env cfg s) :
    (∀ (k : Nat) (w : Worker) (j : Int), s.workers[k]? = some w → w.pc = .build j →
      (accepts env cfg.method cfg.url = false →
        step env cfg s (.worker k) =
          some { s with log := s.log ++ [.createErr w.id j],
                        workers := s.workers.set k
                          { w with pc := .recv, requestWg := w.requestWg - 1 },
                        dones := s.dones ++ [(k, j)] }) ∧
      (∀ req, buildRequest env cfg.method cfg.url = some req →
        step env cfg s (.worker k) =
          some { s with tasks := s.tasks ++ [{ worker := k, job := j, req := req,
                                                result := none }],
                        workers := s.workers.set k { w with pc := .recv } })) ∧
    (∀ (i : Nat) (t : Task) (w : Worker) (o : Outcome), s.tasks[i]? = some t →
      t.result = none → s.workers[t.worker]? = some w →
      step env cfg s (.task i o) =
        some { s with tasks := s.tasks.set i { t with result := some o },
                      log := s.log ++ [taskLine w.id t.job o],
                      workers := s.workers.set t.worker
                        { w with requestWg := w.requestWg - 1 },
                      dones := s.dones ++ [(t.worker, t.job)] }) ∧
    (∀ id j, taskLine id j .doErr = .requestErr id j) ∧
    (∀ id j st, taskLine id j (.resp st) = .completed id j st) ∧
    (∀ (k : Nat) (w : Worker) (j : Int), s.workers[k]? = some w → (k, j) ∈ s.adds →
      w.pc ≠ .build j → (∀ t ∈ s.tasks, t.key = (k, j) → t.result ≠ none) →
      j ∈ s.log.filterMap lineJob) ∧
    s.log.filterMap lineJob = s.dones.map Prod.snd ∧
    (s.log.filterMap lineJob).Nodup ∧
    (∀ id j, LogLine.createErr id j ∈ s.log → accepts env cfg.method cfg.url = false) ∧
    (∀ id j, LogLine.requestErr id j ∈ s.log ↔
      ∃ t ∈ s.tasks, (t.worker : Int) + 1 = id ∧ t.job = j ∧ t.result = some .doErr) ∧
    (∀ id j st, LogLine.completed id j st ∈ s.log ↔
      ∃ t ∈ s.tasks, (t.worker : Int) + 1 = id ∧ t.job = j ∧ t.result = some (.resp st)) ∧
    (accepts env cfg.method cfg.url = false →
      ∀ l ∈ s.log, l = .fatalURL ∨ ∃ id j, l = .createErr id j) ∧
    (s.pc = .done →
      (s.log.length : Int) = cfg.numRequests ∧
      (s.log.map lineJob).Perm ((jobIds cfg.numRequests.toNat).map some) ∧
      (accepts env cfg.method cfg.url = false → ∀ l ∈ s.log, ∃ id j, l = .createErr id j) ∧
      (accepts env cfg.method cfg.url = true →
        (∀ t ∈ s.tasks, ∃ st, t.result = some (.resp st)) →
        ∀ l ∈ s.log, isCompletion l = true)) := by
  have h := inv_reachable hr
  have hrej : accepts env cfg.method cfg.url = false →
      ∀ l ∈ s.log, l = .fatalURL ∨ ∃ id j, l = .createErr id j := by
    intro ha l hl
    have hts := tasks_nil_of_rejected h ha
    have hok := h.log_kind l hl
    cases l with
    | fatalURL => exact Or.inl rfl
    | createErr id j => exact Or.inr ⟨id, j, rfl⟩
    | requestErr id j =>
      obtain ⟨t, ht, _⟩ := hok
      rw [hts] at ht
      cases ht
    | completed id j st =>
      obtain ⟨t, ht, _⟩ := hok
      rw [hts] at ht
      cases ht
  refine ⟨?_, ?_, fun _ _ => rfl, fun _ _ _ => rfl, ?_, h.log_jobs_filter, ?_, ?_, ?_, ?_,
    hrej, ?_⟩
  · intro k w j hk hw
    constructor
    · intro ha
      simp [step, stepWorker, hk, hw, buildRequest_none ha]
    · intro req hb
      simp [step, stepWorker, hk, hw, hb]
  · intro i t w o hi hres hk
    simp [step, stepTask, hi, hres, hk]
  · intro k w j hk hj hb hres
    have h1 := (occ_pos_iff _ _).mpr hj
    have h4 := h.ledger k j
    have h5 := sumBy_pending_zero k j s.tasks hres
    have h6 := buildingJob_at hk j
    simp [hb] at h6
    have h7 : (k, j) ∈ s.dones := (occ_pos_iff _ _).mp (by omega)
    rw [h.log_jobs_filter]
    exact List.mem_map.mpr ⟨(k, j), h7, rfl⟩
  · rw [h.log_jobs_filter]
    exact h.dones_jobs_nodup
  · intro id j hl
    exact accepts_false_of_none (h.log_kind _ hl)
  · intro id j
    constructor
    · intro hl
      exact h.log_kind _ hl
    · rintro ⟨t, ht, hid, hj, hres⟩
      have := h.task_line t ht _ hres
      rw [hid, hj] at this
      exact this
  · intro id j st
    constructor
    · intro hl
      exact h.log_kind _ hl
    · rintro ⟨t, ht, hid, hj, hres⟩
      have := h.task_line t ht _ hres
      rw [hid, hj] at this
      exact this
  · intro hd
    have hp : pastBarrier s.pc = true := by simp [hd, pastBarrier]
    have hu := h.url_ne (by simp [hd, afterMake])
    have hrec := (h.received_all hp hc).2
    have hperm : (s.log.map lineJob).Perm ((jobIds cfg.numRequests.toNat).map some) := by
      rw [h.log_jobs hu.1]
      have h1 := ((h.adds_perm_dones hp).symm.map Prod.snd).map (some : Int → Option Int)
      rw [hrec] at h1
      simpa using h1
    have hnofatal : ∀ l ∈ s.log, l ≠ .fatalURL := by
      intro l hl e
      subst e
      exact hu.1 (h.log_kind _ hl)
    refine ⟨?_, hperm, ?_, ?_⟩
    · have hlen := hperm.length_eq
      simp [jobIds_length] at hlen
      have := hu.2.1
      omega
    · intro ha l hl
      rcases hrej ha l hl with e | e
      · exact absurd e (hnofatal l hl)
      · exact e
    · intro ha hall l hl
      have hok := h.log_kind l hl
      cases l with
      | fatalURL => exact absurd rfl (hnofatal _ hl)
      | createErr id j =>
        have := accepts_false_of_none hok
        rw [ha] at this
        cases this
      | requestErr id j =>
        obtain ⟨t, ht, _, _, hres⟩ := hok
        obtain ⟨st, hst⟩ := hall t ht
        rw [hres] at hst
        cases hst
      | completed id j st => rfl

/-- C6 (witness): the statement applied to five sample states: the worker holding a job
whose request cannot be built (its step logs the construction-error line); two requests in
flight (the end of a request logs its line); the end of the run with the method
"BAD METHOD" (one line for the one job, a construction error); the end of the run in
which both requests got a response, with status 200 and 500 (two lines, both completion
lines); and the end of the run with one error and one 404. -/
theorem C6_one_log_line_per_job_witness :
    (1 ≤ rejectedCfg.concurrency ∧ 1 ≤ demoCfg.concurrency ∧
      rejectedGot.workers[0]? = some { id := 1, pc := .build 1, requestWg := 1 } ∧
      accepts sampleEnv rejectedCfg.method rejectedCfg.url = false ∧
      accepts sampleEnv demoCfg.method demoCfg.url = true ∧
      rejectedFinal.pc = .done ∧ rejectedFinal.log = [.createErr 1 1] ∧
      okFinal.pc = .done ∧ okFinal.log = [.completed 1 2 500, .completed 1 1 200] ∧
      demoFinal.pc = .done ∧ demoFinal.log = [.completed 1 2 404, .requestErr 1 1]) ∧
    (step sampleEnv rejectedCfg rejectedGot (.worker 0) =
      some { rejectedGot with
               log := rejectedGot.log ++ [.createErr 1 1],
               workers := rejectedGot.workers.set 0
                 { id := 1, pc := .recv, requestWg := 1 - 1 },
               dones := rejectedGot.dones ++ [(0, 1)] }) ∧
    (∀ o, step sampleEnv demoCfg demoBusy (.task 0 o) =
      some { demoBusy with
               tasks := demoBusy.tasks.set 0
                 { worker := 0, job := 1, req := demoRequest, result := some o },
               log := demoBusy.log ++ [taskLine 1 1 o],
               workers := demoBusy.workers.set 0 { id := 1, pc := .recv, requestWg := 2 - 1 },
               dones := demoBusy.dones ++ [(0, 1)] }) ∧
    ((rejectedFinal.log.length : Int) = rejectedCfg.numRequests ∧
      (rejectedFinal.log.map lineJob).Perm
        ((jobIds rejectedCfg.numRequests.toNat).map some) ∧
      (∀ l ∈ rejectedFinal.log, ∃ id j, l = .createErr id j)) ∧
    ((okFinal.log.length : Int) = demoCfg.numRequests ∧
      (okFinal.log.map lineJob).Perm ((jobIds demoCfg.numRequests.toNat).map some) ∧
      (∀ l ∈ okFinal.log, isCompletion l = true)) ∧
    ((demoFinal.log.length : Int) = demoCfg.numRequests ∧
      (demoFinal.log.filterMap lineJob).Nodup ∧
      (∃ t ∈ demoFinal.tasks, (t.worker : Int) + 1 = 1 ∧ t.job = 1 ∧
        t.result = some .doErr) ∧
      (∃ t ∈ demoFinal.tasks, (t.worker : Int) + 1 = 1 ∧ t.job = 2 ∧
        t.result = some (.resp 404))) :=
  ⟨⟨by decide, by decide, by decide, by decide, by decide, by decide, by decide, by decide,
     by decide, by decide, by decide⟩,
   ((C6_one_log_line_per_job sampleEnv rejectedCfg rejectedGot (by decide)
      ⟨rejectedSched.take 8, by decide⟩).1 0
      { id := 1, pc := .build 1, requestWg := 1 } 1 (by decide) rfl).1 (by decide),
   fun o => (C6_one_log_line_per_job sampleEnv demoCfg demoBusy (by decide)
      ⟨demoSched.take 10, by decide⟩).2.1 0
      { worker := 0, job := 1, req := demoRequest, result := none }
      { id := 1, pc := .recv, requestWg := 2 } o (by decide) (by decide) (by decide),
   ⟨((C6_one_log_line_per_job sampleEnv rejectedCfg rejectedFinal (by decide)
        ⟨rejectedSched, by decide⟩).2.2.2.2.2.2.2.2.2.2.2 (by decide)).1,
    ((C6_one_log_line_per_job sampleEnv rejectedCfg rejectedFinal (by decide)
        ⟨rejectedSched, by decide⟩).2.2.2.2.2.2.2.2.2.2.2 (by decide)).2.1,
    ((C6_one_log_line_per_job sampleEnv rejectedCfg rejectedFinal (by decide)
        ⟨rejectedSched, by decide⟩).2.2.2.2.2.2.2.2.2.2.2 (by decide)).2.2.1 (by decide)⟩,
   ⟨((C6_one_log_line_per_job sampleEnv demoCfg okFinal (by decide)
        ⟨okSched, by decide⟩).2.2.2.2.2.2.2.2.2.2.2 (by decide)).1,
    ((C6_one_log_line_per_job sampleEnv demoCfg okFinal (by decide)
        ⟨okSched, by decide⟩).2.2.2.2.2.2.2.2.2.2.2 (by decide)).2.1,
    ((C6_one_log_line_per_job sampleEnv demoCfg okFinal (by decide)
        ⟨okSched, by decide⟩).2.2.2.2.2.2.2.2.2.2.2 (by decide)).2.2.2 (by decide)
        (by
          intro t ht
          have h2 : t.result = some (.resp 200) ∨ t.result = some (.resp 500) := by
            revert t
            decide
          rcases h2 with e | e
          · exact ⟨200, e⟩
          · exact ⟨500, e⟩)⟩,
   ⟨((C6_one_log_line_per_job sampleEnv demoCfg demoFinal (by decide)
        ⟨demoSched, by decide⟩).2.2.2.2.2.2.2.2.2.2.2 (by decide)).1,
    (C6_one_log_line_per_job sampleEnv demoCfg demoFinal (by decide)
        ⟨demoSched, by decide⟩).2.2.2.2.2.2.1,
    ((C6_one_log_line_per_job sampleEnv demoCfg demoFinal (by decide)
        ⟨demoSched, by decide⟩).2.2.2.2.2.2.2.2.1 1 1).mp (by decide),
    ((C6_one_log_line_per_job sampleEnv demoCfg demoFinal (by decide)
        ⟨demoSched, by decide⟩).2.2.2.2.2.2.2.2.2.1 1 2 404).mp (by decide)⟩⟩

end LoadTester
